import Mathlib

/-!
Shallow embedding of the Crawler_QPOD repository (four Python batch scripts:
`download_cif_list.py`, `dedup_ids.py`, `download_cifs.py`, `check_cifs.py`)
together with theorems settling the frozen claims about them.

Python strings are modelled as `List Char` (`Str`), file contents as `Str`,
lines as `Str`, directory listings as lists of entries.  Python's default
`str.strip` whitespace set is modelled by `Char.isWhitespace` and
`str.lower` by `Char.toLower`; the identifiers and file names involved are
ASCII, where both agree with Python exactly.
-/

/-- Model of a Python `str`: a list of characters. -/
abbrev Str := List Char

/-- Python `s.strip()`: remove leading and trailing whitespace. -/
def pyStrip (s : Str) : Str :=
  ((s.dropWhile Char.isWhitespace).reverse.dropWhile Char.isWhitespace).reverse

/-- Python `s.lower()`: lowercase each character. -/
def pyLower (s : Str) : Str := s.map Char.toLower

/-- Python `s.startswith("#")`: the first character is `'#'`. -/
def startsHash (s : Str) : Bool := s.head? == some '#'

/-- Python `pat == s[:len(pat)]`, i.e. `s.startswith(pat)`. -/
def startsW : Str → Str → Bool
  | [], _ => true
  | _ :: _, [] => false
  | p :: ps, c :: cs => p = c && startsW ps cs

/-- Python `pat in s`: `pat` occurs as a contiguous substring of `s`. -/
def hasSub (pat : Str) : Str → Bool
  | [] => startsW pat []
  | c :: rest => startsW pat (c :: rest) || hasSub pat rest

/-- Python `s.split(pat, 1)[0]` when `pat` occurs in `s` (and `s` itself
when it does not): the part of `s` before the first occurrence of `pat`. -/
def beforeSub (pat : Str) : Str → Str
  | [] => []
  | c :: rest => if startsW pat (c :: rest) then [] else c :: beforeSub pat rest

/-- The part of `s` strictly after the first occurrence of `pat`
(empty when `pat` does not occur). -/
def afterSub (pat : Str) : Str → Str
  | [] => []
  | c :: rest =>
    if startsW pat (c :: rest) then (c :: rest).drop pat.length
    else afterSub pat rest

/-!
## `dedup_ids.py`

`main` reads the identifier file, splits it into lines, deduplicates them
(first occurrence wins, comment lines kept verbatim, blank lines dropped),
and rewrites the file (with a backup of the line sequence) only when the
deduplicated sequence differs from the original.
-/

/-- The loop body of `dedup_ids.main` (source lines 18-26): the `seen` set is
modelled as the list of strings added to it so far.  Per line: drop it if it
strips to empty; keep it unconditionally if it starts with `'#'`; otherwise
keep it only on first occurrence. -/
def dedupAux (seen : List Str) : List Str → List Str
  | [] => []
  | line :: rest =>
    if pyStrip line = [] then dedupAux seen rest
    else if startsHash line then line :: dedupAux seen rest
    else if line ∈ seen then dedupAux seen rest
    else line :: dedupAux (line :: seen) rest

/-- `dedup_ids.main`'s deduplicated line sequence (`deduped`), starting from
an empty `seen` set. -/
def dedupLines (text : List Str) : List Str := dedupAux [] text

/-- Spec-side first-occurrence filter: keep each string's first occurrence,
skipping strings already in `seen`.  Used to state what the non-comment part
of `dedupLines` computes. -/
def kfoFrom (seen : List Str) : List Str → List Str
  | [] => []
  | x :: xs => if x ∈ seen then kfoFrom seen xs else x :: kfoFrom (x :: seen) xs

/-- Python `"\n".join(lines) + "\n"` (how `dedup_ids.main` serializes both the
backup and the rewritten identifier file, source lines 32-33). -/
def joinNL (ls : List Str) : Str := (List.intercalate ['\n'] ls) ++ ['\n']

/-- Helper for `splitlinesNL`: accumulates the current line (reversed) while
scanning; a final fragment without a terminating newline still yields a line,
and a terminating newline at the very end does not open an empty line.
This matches Python `str.splitlines` on strings whose only line breaks are
`'\n'` (which is what `pathlib.Path.read_text`'s universal-newline translation
leaves for CR/LF input; exotic Unicode breaks are outside the model). -/
def splitAux (cur : Str) : Str → List Str
  | [] => [cur.reverse]
  | c :: rest =>
    if c = '\n' then
      if rest.isEmpty then [cur.reverse]
      else cur.reverse :: splitAux [] rest
    else splitAux (c :: cur) rest

/-- Python `content.splitlines()` for `'\n'`-separated content. -/
def splitlinesNL (c : Str) : List Str :=
  if c.isEmpty then [] else splitAux [] c

/-- File targets `dedup_ids.py` can write: the identifier file itself and its
`.bak` backup. -/
inductive FileTarget where
  | backupFile : FileTarget
  | idsFile : FileTarget
deriving DecidableEq

/-- The write effects of one run of `dedup_ids.main` on a file whose content
is `content`, in program order (source lines 28-33): nothing when the
deduplicated sequence equals the original line sequence, otherwise first the
backup and then the rewritten identifier file. -/
def dedupRunWrites (content : Str) : List (FileTarget × Str) :=
  let text := splitlinesNL content
  let ded := dedupLines text
  if ded = text then []
  else [(FileTarget.backupFile, joinNL text), (FileTarget.idsFile, joinNL ded)]

/-- The content of the identifier file after one run of `dedup_ids.main`. -/
def fileAfterRun (content : Str) : Str :=
  let text := splitlinesNL content
  let ded := dedupLines text
  if ded = text then content else joinNL ded

/-!
## SHA-1 (`hashlib.sha1`)

`download_cifs.resolve_output_path` derives the casefix suffix as
`hashlib.sha1(material_id.encode("utf-8")).hexdigest()[:8]` (source line 94).
SHA-1 is embedded below over byte lists (`List Nat`, each < 256), with 32-bit
words as `Nat` reduced mod `2 ^ 32`.
-/

/-- Truncate to a 32-bit word. -/
def w32 (n : Nat) : Nat := n % 4294967296

/-- Rotate a 32-bit word left by `k` (for `n < 2 ^ 32`). -/
def rotl32 (k n : Nat) : Nat := w32 ((n <<< k) ||| (n >>> (32 - k)))

/-- UTF-8 encoding of one character, as bytes. -/
def utf8Char (ch : Char) : List Nat :=
  let n := ch.toNat
  if n < 128 then [n]
  else if n < 2048 then [192 ||| (n >>> 6), 128 ||| (n &&& 63)]
  else if n < 65536 then
    [224 ||| (n >>> 12), 128 ||| ((n >>> 6) &&& 63), 128 ||| (n &&& 63)]
  else
    [240 ||| (n >>> 18), 128 ||| ((n >>> 12) &&& 63),
     128 ||| ((n >>> 6) &&& 63), 128 ||| (n &&& 63)]

/-- Python `s.encode("utf-8")`. -/
def utf8Bytes (s : Str) : List Nat := (s.map utf8Char).flatten

/-- Big-endian 8-byte encoding of a number (the SHA-1 length field). -/
def be8Bytes (n : Nat) : List Nat :=
  (List.range 8).map (fun i => n / 256 ^ (7 - i) % 256)

/-- SHA-1 message padding: append `0x80`, zeros to 56 mod 64, then the
bit length as 8 big-endian bytes. -/
def sha1Pad (msg : List Nat) : List Nat :=
  let len := msg.length
  let k := (64 + 56 - (len + 1) % 64) % 64
  msg ++ [128] ++ List.replicate k 0 ++ be8Bytes (len * 8)

/-- Split into chunks of 64 bytes; `fuel` bounds the recursion (callers pass
the list length, which suffices since every step consumes 64 bytes). -/
def toChunks : Nat → List Nat → List (List Nat)
  | 0, _ => []
  | _, [] => []
  | fuel + 1, l => l.take 64 :: toChunks fuel (l.drop 64)

/-- The big-endian 32-bit word at word index `i` of a chunk. -/
def wordAt (chunk : List Nat) (i : Nat) : Nat :=
  chunk.getD (4 * i) 0 * 16777216 + chunk.getD (4 * i + 1) 0 * 65536 +
    chunk.getD (4 * i + 2) 0 * 256 + chunk.getD (4 * i + 3) 0

/-- One step of the SHA-1 message-schedule extension: append
`rotl1 (w[n-3] xor w[n-8] xor w[n-14] xor w[n-16])`. -/
def extendStep (ws : List Nat) : List Nat :=
  let n := ws.length
  ws ++ [rotl32 1 ((ws.getD (n - 3) 0) ^^^ (ws.getD (n - 8) 0) ^^^
    (ws.getD (n - 14) 0) ^^^ (ws.getD (n - 16) 0))]

/-- Iterate a function `n` times. -/
def iterN (f : α → α) : Nat → α → α
  | 0, a => a
  | n + 1, a => iterN f n (f a)

/-- The 80-word message schedule of a chunk. -/
def sha1Schedule (chunk : List Nat) : List Nat :=
  iterN extendStep 64 ((List.range 16).map (wordAt chunk))

/-- The SHA-1 round function and round constant for round `i`. -/
def sha1FK (i b c d : Nat) : Nat × Nat :=
  if i < 20 then ((b &&& c) ||| ((2 ^ 32 - 1 - b) &&& d), 1518500249)
  else if i < 40 then (b ^^^ c ^^^ d, 1859775393)
  else if i < 60 then ((b &&& c) ||| (b &&& d) ||| (c &&& d), 2400959708)
  else (b ^^^ c ^^^ d, 3395469782)

/-- One SHA-1 compression round. -/
def sha1Round (ws : List Nat) (st : Nat × Nat × Nat × Nat × Nat) (i : Nat) :
    Nat × Nat × Nat × Nat × Nat :=
  let (a, b, c, d, e) := st
  let (f, k) := sha1FK i b c d
  let temp := w32 (rotl32 5 a + f + e + k + ws.getD i 0)
  (temp, a, rotl32 30 b, c, d)

/-- Process one 64-byte chunk, updating the five hash words. -/
def sha1Chunk (h : Nat × Nat × Nat × Nat × Nat) (chunk : List Nat) :
    Nat × Nat × Nat × Nat × Nat :=
  let ws := sha1Schedule chunk
  let (a, b, c, d, e) := (List.range 80).foldl (sha1Round ws) h
  let (h0, h1, h2, h3, h4) := h
  (w32 (h0 + a), w32 (h1 + b), w32 (h2 + c), w32 (h3 + d), w32 (h4 + e))

/-- SHA-1 of a byte list: the five 32-bit hash words. -/
def sha1Words (msg : List Nat) : List Nat :=
  let padded := sha1Pad msg
  let (h0, h1, h2, h3, h4) :=
    (toChunks padded.length padded).foldl sha1Chunk
      (1732584193, 4023233417, 2562383102, 271733878, 3285377520)
  [h0, h1, h2, h3, h4]

/-- The sixteen lowercase hex digits. -/
def hexChars : List Char := "0123456789abcdef".toList

/-- The hex digit for `n` (`n < 16` at every use site). -/
def hexDigitChar (n : Nat) : Char := hexChars.getD n '0'

/-- A 32-bit word as 8 lowercase hex characters, big-endian. -/
def wordToHex (w : Nat) : Str :=
  (List.range 8).map (fun i => hexDigitChar (w / 16 ^ (7 - i) % 16))

/-- Python `hashlib.sha1(bytes).hexdigest()`, as a character list. -/
def sha1Hex (msg : List Nat) : Str := ((sha1Words msg).map wordToHex).flatten

/-!
## `download_cifs.py`
-/

/-- A directory entry as seen by `output_dir.iterdir()`: its file name and
whether it is a regular file. -/
structure DirEntry where
  name : Str
  isFile : Bool
deriving DecidableEq

/-- The `.cif` extension. -/
def cifExt : Str := ".cif".toList

/-- The casefix marker `"__casefix-"`. -/
def casefixMark : Str := "__casefix-".toList

/-- Outcome of the directory scan inside `resolve_output_path` (source lines
81-91): the loop skips non-files and names that do not match the target
case-insensitively; at the first case-insensitive match it either returns the
entry (exact case) or breaks with `case_collision = True`. -/
inductive ScanOutcome where
  | exactHit : ScanOutcome
  | caseHit : ScanOutcome
  | noHit : ScanOutcome
deriving DecidableEq

/-- The `for entry in output_dir.iterdir()` loop of `resolve_output_path`,
scanning entries in directory iteration order. -/
def resolveScanLoop (targetName targetLower : Str) : List DirEntry → ScanOutcome
  | [] => ScanOutcome.noHit
  | e :: rest =>
    if !e.isFile then resolveScanLoop targetName targetLower rest
    else if pyLower e.name ≠ targetLower then resolveScanLoop targetName targetLower rest
    else if e.name = targetName then ScanOutcome.exactHit
    else ScanOutcome.caseHit

/-- The casefix suffix for an identifier:
`hashlib.sha1(material_id.encode("utf-8")).hexdigest()[:8]` (source line 94). -/
def casefixSuffix (materialId : Str) : Str :=
  (sha1Hex (utf8Bytes materialId)).take 8

/-- `download_cifs.resolve_output_path` (source lines 75-95): the returned
file name to write and the `already exists, skip` flag.  The output directory
is created by `mkdir(exist_ok=True)` before the scan, so the `exists()` guard
on the directory is always true and the scan always runs. -/
def resolveOutputPath (materialId : Str) (entries : List DirEntry) : Str × Bool :=
  let targetName := materialId ++ cifExt
  match resolveScanLoop targetName (pyLower targetName) entries with
  | ScanOutcome.exactHit => (targetName, true)
  | ScanOutcome.caseHit =>
    (materialId ++ casefixMark ++ casefixSuffix materialId ++ cifExt, false)
  | ScanOutcome.noHit => (targetName, false)

/-- Resolution as described by the amended claim, driven by the first
case-insensitive match in directory iteration order: exact-case first match
means skip, differently-cased first match means a casefix target, no match
means the plain target. -/
def resolveFirstMatch (materialId : Str) (entries : List DirEntry) : Str × Bool :=
  let targetName := materialId ++ cifExt
  match entries.find? (fun e => e.isFile && pyLower e.name = pyLower targetName) with
  | none => (targetName, false)
  | some e =>
    if e.name = targetName then (targetName, true)
    else (materialId ++ casefixMark ++ casefixSuffix materialId ++ cifExt, false)

/-- Result of the HTTP GET in `download_cif` (source lines 101-115): a
response with a status and body, an `HTTPError`, a `URLError`, or a timeout. -/
inductive NetResult where
  | ok : Nat → List Nat → NetResult
  | httpErr : Nat → NetResult
  | urlErr : NetResult
  | timedOut : NetResult

/-- `download_cifs.download_cif` (source lines 66-123), with the network as
an oracle `net` and the filesystem write outcome as an oracle `writeOk`.
Returns `(success, networkCalled)`: on an exact-case skip the function
returns `True` without touching the network; otherwise it performs the GET
and succeeds only on status 200 followed by a successful write. -/
def downloadCif (materialId : Str) (entries : List DirEntry)
    (net : Str → NetResult) (writeOk : Bool) : Bool × Bool :=
  let r := resolveOutputPath materialId entries
  if r.2 && entries.any (fun e => e.name = r.1) then (true, false)
  else
    match net materialId with
    | NetResult.ok status _ => if status ≠ 200 then (false, true) else (writeOk, true)
    | NetResult.httpErr _ => (false, true)
    | NetResult.urlErr => (false, true)
    | NetResult.timedOut => (false, true)

/-- A row of the download log: the `id` field and the `downloaded` field
(both strings, as in the CSV). -/
abbrev LogRow := Str × Str

/-- Python `str(success)` for the `downloaded` CSV field. -/
def boolStr (b : Bool) : Str :=
  if b then "True".toList else "False".toList

/-- The truthiness test of `download_cifs.main` (source line 179):
`value.strip().lower() in {"true", "1", "yes", "y"}`. -/
def truthyFlag (s : Str) : Bool :=
  pyLower (pyStrip s) ∈ ["true".toList, "1".toList, "yes".toList, "y".toList]

/-- `download_cifs.iter_material_ids`'s reading loop (source lines 54-59):
strip each line, skip empties and `'#'` comments, keep the rest in order. -/
def collectIds : List Str → List Str
  | [] => []
  | raw :: rest =>
    let m := pyStrip raw
    if m.isEmpty || startsHash m then collectIds rest
    else m :: collectIds rest

/-- `download_cifs.iter_material_ids` (source lines 50-64): `SystemExit` when
the file cannot be read (`none` input) or when no identifiers remain after
filtering. -/
def iterMaterialIds (fileLines : Option (List Str)) : Except Unit (List Str) :=
  match fileLines with
  | none => Except.error ()
  | some lines =>
    let ids := collectIds lines
    if ids.isEmpty then Except.error () else Except.ok ids

/-- The index-building loop of `download_cifs.main` (source lines 172-176):
map each nonempty stripped id to the position of its first occurrence.  The
accumulator is an association list to which a key is added only when absent,
so `List.lookup` returns exactly the Python `dict` lookup. -/
def buildIndexAux (acc : List (Str × Nat)) (i : Nat) : List LogRow → List (Str × Nat)
  | [] => acc
  | row :: rest =>
    let mid := pyStrip row.1
    if !mid.isEmpty && (acc.lookup mid).isNone
    then buildIndexAux ((mid, i) :: acc) (i + 1) rest
    else buildIndexAux acc (i + 1) rest

/-- The `index` dict of `download_cifs.main` after its build loop. -/
def buildIndex (rows : List LogRow) : List (Str × Nat) := buildIndexAux [] 0 rows

/-- Membership of an id in `previously_downloaded` (source lines 177-180):
it has an indexed row and that row's `downloaded` field is truthy. -/
def previouslyDownloadedFlag (rows : List LogRow) (index : List (Str × Nat))
    (mid : Str) : Bool :=
  match index.lookup mid with
  | some i => truthyFlag (rows.getD i ([], [])).2
  | none => false

/-- `ids_to_process` (source line 181): the listed ids not previously
downloaded according to the log. -/
def idsToProcess (materialIds : List Str) (rows : List LogRow) : List Str :=
  materialIds.filter (fun m => !previouslyDownloadedFlag rows (buildIndex rows) m)

/-- The per-result log update of `download_cifs.main` (source lines 216-221):
overwrite the indexed row in place, or append and extend the index. -/
def processOne (rows : List LogRow) (index : List (Str × Nat))
    (id : Str) (succ : Bool) : List LogRow × List (Str × Nat) :=
  match index.lookup id with
  | some i => (rows.set i (id, boolStr succ), index)
  | none => (rows ++ [(id, boolStr succ)], (id, rows.length) :: index)

/-- The `as_completed` loop of `download_cifs.main` restricted to its log
effects (source lines 205-222), over the completion-ordered list of
`(id, success)` results: returns the final in-memory log and the sequence of
full-log snapshots persisted by `write_log`, one per completed task. -/
def runLogAux (rows : List LogRow) (index : List (Str × Nat)) :
    List (Str × Bool) → List LogRow × List (List LogRow)
  | [] => (rows, [])
  | (id, succ) :: rest =>
    let p := processOne rows index id succ
    let r := runLogAux p.1 p.2 rest
    (r.1, p.1 :: r.2)

/-- The spec-side log update ("overwrites any prior row for that identifier
in place or is appended if none exists", first occurrence winning): written
directly from the spec's words, to be compared with `processOne`. -/
def specLogStep (rows : List LogRow) (id : Str) (succ : Bool) : List LogRow :=
  match rows.findIdx? (fun row => pyStrip row.1 = id) with
  | some i => rows.set i (id, boolStr succ)
  | none => rows ++ [(id, boolStr succ)]

/-- Spec-side run of `specLogStep` over the completed results, returning the
persisted snapshots. -/
def specLogSnapshots (rows : List LogRow) : List (Str × Bool) → List (List LogRow)
  | [] => []
  | (id, succ) :: rest =>
    let rows' := specLogStep rows id succ
    rows' :: specLogSnapshots rows' rest

/-- Spec-side run of `specLogStep` over the completed results, returning the
final log. -/
def specLogFold (rows : List LogRow) : List (Str × Bool) → List LogRow
  | [] => rows
  | (id, succ) :: rest => specLogFold (specLogStep rows id succ) rest

/-- The visible inputs of one `download_cifs.main` run: the identifier file
(`none` when unreadable), the rows loaded from the existing log (`load_log`
returns `[]` when that file is absent or unreadable), and the
completion-ordered `(id, success)` task results delivered by `as_completed`. -/
structure RunInput where
  idsFileLines : Option (List Str)
  logRows : List LogRow
  completed : List (Str × Bool)
deriving Inhabited

/-- The outcome of one `download_cifs.main` run.  `earlyError` is the
`SystemExit` raised by `iter_material_ids` (source line 169, before the log
is read or any task is submitted); `allSkipped` is the early `return 0` when
every listed id is already downloaded (source lines 182-184); `finished`
carries the process exit code, the final log rows, the persisted log
snapshots, and the list of ids submitted as download tasks. -/
inductive RunOutcome where
  | earlyError : RunOutcome
  | allSkipped : RunOutcome
  | finished : Nat → List LogRow → List (List LogRow) → List Str → RunOutcome
deriving DecidableEq

/-- `download_cifs.main` (source lines 167-230).  The download tasks
submitted to the pool are exactly `ids_to_process`; their results arrive in
the completion order `inp.completed`; `downloaded` counts the successes; the
exit code is `0 if downloaded else 1`. -/
def runMain (inp : RunInput) : RunOutcome :=
  match iterMaterialIds inp.idsFileLines with
  | Except.error _ => RunOutcome.earlyError
  | Except.ok mids =>
    let todo := idsToProcess mids inp.logRows
    if todo.isEmpty then RunOutcome.allSkipped
    else
      let res := runLogAux inp.logRows (buildIndex inp.logRows) inp.completed
      let downloaded := (inp.completed.filter (fun r => r.2)).length
      RunOutcome.finished (if downloaded > 0 then 0 else 1) res.1 res.2 todo

/-- The log snapshots persisted by a run (empty for the early exits, which
happen before any `write_log` call in the processing loop). -/
def runWrites : RunOutcome → List (List LogRow)
  | RunOutcome.finished _ _ writes _ => writes
  | _ => []

/-- The ids submitted as download tasks by a run (empty for the early exits,
which happen before any task is submitted: no network request is made). -/
def runTasks : RunOutcome → List Str
  | RunOutcome.finished _ _ _ tasks => tasks
  | _ => []

/-!
## `check_cifs.py`
-/

/-- `pathlib`'s suffix rule: the file name from its last dot onward, provided
that dot is neither the first nor the last character; otherwise empty. -/
def pathSuffix (name : Str) : Str :=
  match name.reverse.findIdx? (fun c => c = '.') with
  | none => []
  | some j =>
    let i := name.length - 1 - j
    if 0 < i ∧ i < name.length - 1 then name.drop i else []

/-- `pathlib`'s stem rule: the file name up to its last dot, under the same
proviso as `pathSuffix`; otherwise the whole name. -/
def pathStem (name : Str) : Str :=
  match name.reverse.findIdx? (fun c => c = '.') with
  | none => name
  | some j =>
    let i := name.length - 1 - j
    if 0 < i ∧ i < name.length - 1 then name.take i else name

/-- The per-entry stem extraction of `check_cifs.iter_cif_names` (source
lines 25-28): the stem, cut before the first `"__casefix-"` when present. -/
def stripCasefix (stem : Str) : Str :=
  if hasSub casefixMark stem then beforeSub casefixMark stem else stem

/-- `check_cifs.iter_cif_names` (source lines 19-29): the stems (casefix
stripped) of the regular files whose suffix lowercases to `".cif"`, as a
list whose membership gives the Python set. -/
def iterCifNames : List DirEntry → List Str
  | [] => []
  | e :: rest =>
    if e.isFile && pyLower (pathSuffix e.name) = cifExt
    then stripCasefix (pathStem e.name) :: iterCifNames rest
    else iterCifNames rest

/-- `check_cifs.iter_ids` (source lines 10-17): same filtering as
`iter_material_ids`, the order-irrelevant Python set being the membership of
the resulting list. -/
def iterIdsCheck : List Str → List Str
  | [] => []
  | raw :: rest =>
    let line := pyStrip raw
    if !line.isEmpty && !startsHash line then line :: iterIdsCheck rest
    else iterIdsCheck rest

/-- Python `sorted` on a set of strings, the set being represented by a list:
deduplicate and sort by the lexicographic order on `List Char` (Python's
string order, comparing code points). -/
def sortedSet (l : List Str) : List Str :=
  List.insertionSort (· ≤ ·) l.dedup

/-- What one `check_cifs.main` run computes and writes (source lines 31-59):
`missing`, `extra`, and the content written (unconditionally) to the
missing-IDs file, which is `"\n".join(missing)` with no trailing newline. -/
structure CheckResult where
  missing : List Str
  extra : List Str
  writtenContent : Str
deriving DecidableEq

/-- `check_cifs.main` (source lines 31-59). -/
def checkRun (idLines : List Str) (entries : List DirEntry) : CheckResult :=
  let expected := iterIdsCheck idLines
  let actual := iterCifNames entries
  let missing := sortedSet (expected.filter (fun x => !actual.contains x))
  let extra := sortedSet (actual.filter (fun x => !expected.contains x))
  ⟨missing, extra, List.intercalate ['\n'] missing⟩

/-!
## `download_cif_list.py` (the scraper)
-/

/-- The "next page" anchor found by `soup.find("a", class_="page-link", ...)`
(source lines 81-85), abstracted to what the termination test reads: the
class list of its parent `<li>`, when it has one. -/
structure NextCtl where
  parentLiClasses : Option (List Str)
deriving DecidableEq

/-- One fetched table page, abstracted to what the loop body reads: per
`<tbody> <tr>` row, the `href` of its `<th>` anchor when present, and the
"next page" control when present. -/
structure PageModel where
  rowAnchors : List (Option Str)
  nextCtl : Option NextCtl
deriving DecidableEq

/-- The `"/material/"` marker of the CSS selector and of the id split. -/
def materialMark : Str := "/material/".toList

/-- The link-collecting pass (source lines 56-60): the hrefs of row anchors
matched by the selector `th a[href*='/material/']`, i.e. those containing
`"/material/"`. -/
def linkRows (p : PageModel) : List Str :=
  p.rowAnchors.foldr
    (fun a acc =>
      match a with
      | some href => if hasSub materialMark href then href :: acc else acc
      | none => acc)
    []

/-- `a["href"].split("/material/")[1]` (source line 69): the segment between
the first occurrence of `"/material/"` and the next occurrence (or the end). -/
def extractMaterialId (href : Str) : Str :=
  beforeSub materialMark (afterSub materialMark href)

/-- The disabled test (source lines 91-94): the parent `<li>` exists and its
class list contains `"disabled"`. -/
def nextDisabled (ctl : NextCtl) : Bool :=
  match ctl.parentLiClasses with
  | some cls => cls.contains "disabled".toList
  | none => false

/-- The id-appending pass (source lines 67-73): append each extracted id not
already in the accumulated set (the file plus `existing_ids`), in order. -/
def appendNew (ids newIds : List Str) : List Str :=
  newIds.foldl (fun acc i => if acc.contains i then acc else acc ++ [i]) ids

/-- The scraping `while True` loop (source lines 35-97) over a synthetic page
sequence `pages`, starting at page number `p` with accumulated ids `ids`;
transient request errors are outside the model (every fetch succeeds).
`fuel` bounds the recursion: `none` means the loop was still running after
`fuel` pages, `some (ids, q)` means it terminated with `q` the last page
fetched and `ids` the accumulated id list.  The breaks on an empty row set
and on an empty link set happen before the page's ids are written; the
breaks on a missing or disabled next control happen after. -/
def runScraper (pages : Nat → PageModel) : Nat → Nat → List Str → Option (List Str × Nat)
  | 0, _, _ => none
  | fuel + 1, p, ids =>
    let page := pages p
    if page.rowAnchors.isEmpty then some (ids, p)
    else
      let links := linkRows page
      if links.isEmpty then some (ids, p)
      else
        let ids' := appendNew ids (links.map extractMaterialId)
        match page.nextCtl with
        | none => some (ids', p)
        | some ctl =>
          if nextDisabled ctl then some (ids', p)
          else runScraper pages fuel (p + 1) ids'

/-- The amended termination condition: a page stops the loop when it has no
rows, or no row carries a material link, or the next control is absent or
disabled. -/
def scrapeStop (page : PageModel) : Bool :=
  page.rowAnchors.isEmpty || (linkRows page).isEmpty ||
    (match page.nextCtl with
     | none => true
     | some ctl => nextDisabled ctl)

/-- The claim's termination condition as stated: no data rows, or the next
control absent, or disabled (it omits the no-material-links break). -/
def scrapeStopClaimed (page : PageModel) : Bool :=
  page.rowAnchors.isEmpty ||
    (match page.nextCtl with
     | none => true
     | some ctl => nextDisabled ctl)

/-- A synthetic three-page sequence: pages 1 and 2 have an enabled next
control, page 3's next control sits in a `<li class="disabled">`; every page
carries one material link.  Pages past the third are never fetched. -/
def c9PagesThree : Nat → PageModel
  | 0 => ⟨[some "/material/id-a".toList], some ⟨some []⟩⟩
  | 1 => ⟨[some "/material/id-b".toList], some ⟨some []⟩⟩
  | _ => ⟨[some "/material/id-c".toList], some ⟨some ["disabled".toList]⟩⟩

/-- A synthetic page sequence whose every page has one data row without any
material link, and an enabled next control. -/
def c9NoLinkPages : Nat → PageModel :=
  fun _ => ⟨[none], some ⟨some []⟩⟩

/-!
## Lemmas: `pyStrip` and basic string facts
-/

theorem pyStrip_eq_nil_iff {s : Str} : pyStrip s = [] ↔ ∀ c ∈ s, c.isWhitespace := by
  unfold pyStrip
  rw [List.reverse_eq_nil_iff, List.dropWhile_eq_nil_iff]
  simp only [List.mem_reverse]
  constructor
  · intro h c hc
    rcases List.mem_append.1
        ((List.takeWhile_append_dropWhile Char.isWhitespace s) ▸ hc) with hm | hm
    · exact List.mem_takeWhile_imp hm
    · exact h c hm
  · intro h x hx
    exact h x ((List.dropWhile_suffix Char.isWhitespace).sublist.subset hx)

theorem startsHash_pyStrip_ne {s : Str} (h : startsHash s = true) : pyStrip s ≠ [] := by
  unfold startsHash at h
  rw [beq_iff_eq] at h
  cases s with
  | nil => simp at h
  | cons c rest =>
    have hc : c = '#' := by simpa using h
    subst hc
    intro hnil
    have := pyStrip_eq_nil_iff.1 hnil '#' (List.mem_cons_self _ _)
    simp [Char.isWhitespace] at this

theorem head?_dropWhile_false {p : α → Bool} {l : List α} {a : α}
    (h : (l.dropWhile p).head? = some a) : p a = false := by
  have hne : l.dropWhile p ≠ [] := by
    intro hn; rw [hn] at h; simp at h
  have := List.head_dropWhile_not p l hne
  rw [List.head?_eq_head hne] at h
  have ha : (l.dropWhile p).head hne = a := by injection h
  rw [← ha]
  simpa using this

theorem getLast?_dropWhile {p : α → Bool} {l : List α} (h : l.dropWhile p ≠ []) :
    (l.dropWhile p).getLast? = l.getLast? := by
  conv_rhs => rw [← List.takeWhile_append_dropWhile p l]
  rw [List.getLast?_append]
  cases hv : (l.dropWhile p).getLast? with
  | none => exact absurd (List.getLast?_eq_none_iff.mp hv) h
  | some a => simp

theorem dropWhile_head_eq_self {p : α → Bool} {l : List α}
    (h : ∀ a, l.head? = some a → p a = false) : l.dropWhile p = l := by
  cases l with
  | nil => rfl
  | cons a t =>
    have := h a rfl
    exact List.dropWhile_cons_of_neg (by simp [this])

theorem pyStrip_of_ends {s : Str}
    (h1 : ∀ a, s.head? = some a → a.isWhitespace = false)
    (h2 : ∀ a, s.getLast? = some a → a.isWhitespace = false) : pyStrip s = s := by
  unfold pyStrip
  rw [dropWhile_head_eq_self h1]
  rw [dropWhile_head_eq_self (by
    intro a ha
    rw [List.head?_reverse] at ha
    exact h2 a ha)]
  simp

theorem pyStrip_idem (s : Str) : pyStrip (pyStrip s) = pyStrip s := by
  apply pyStrip_of_ends
  · intro a ha
    unfold pyStrip at ha
    rw [List.head?_reverse] at ha
    have hne : (s.dropWhile Char.isWhitespace).reverse.dropWhile Char.isWhitespace ≠ [] := by
      intro hn; rw [hn] at ha; simp at ha
    rw [getLast?_dropWhile hne, List.getLast?_reverse] at ha
    exact head?_dropWhile_false ha
  · intro a ha
    unfold pyStrip at ha
    rw [List.getLast?_reverse] at ha
    exact head?_dropWhile_false ha

theorem mem_collectIds {lines : List Str} {x : Str} (h : x ∈ collectIds lines) :
    pyStrip x = x ∧ x ≠ [] ∧ startsHash x = false := by
  induction lines with
  | nil => simp [collectIds] at h
  | cons raw rest ih =>
    unfold collectIds at h
    by_cases hc : (pyStrip raw).isEmpty || startsHash (pyStrip raw)
    · rw [if_pos hc] at h
      exact ih h
    · rw [if_neg hc] at h
      simp only [Bool.or_eq_true, List.isEmpty_iff, not_or, Bool.not_eq_true] at hc
      rcases List.mem_cons.1 h with rfl | hm
      · exact ⟨pyStrip_idem raw, hc.1, hc.2⟩
      · exact ih hm

/-!
## Lemmas: deduplication (`dedup_ids.py`)
-/

theorem dedupAux_cons (seen : List Str) (line : Str) (rest : List Str) :
    dedupAux seen (line :: rest) =
      if pyStrip line = [] then dedupAux seen rest
      else if startsHash line then line :: dedupAux seen rest
      else if line ∈ seen then dedupAux seen rest
      else line :: dedupAux (line :: seen) rest := rfl

theorem dedupAux_sublist (seen : List Str) (l : List Str) :
    List.Sublist (dedupAux seen l) l := by
  induction l generalizing seen with
  | nil => simp [dedupAux]
  | cons line rest ih =>
    unfold dedupAux
    by_cases h1 : pyStrip line = []
    · rw [if_pos h1]
      exact (ih seen).cons line
    · rw [if_neg h1]
      by_cases h2 : startsHash line
      · rw [if_pos h2]
        exact (ih seen).cons₂ line
      · rw [if_neg h2]
        by_cases h3 : line ∈ seen
        · rw [if_pos h3]
          exact (ih seen).cons line
        · rw [if_neg h3]
          exact (ih (line :: seen)).cons₂ line

theorem dedupAux_comments (seen : List Str) (l : List Str) :
    (dedupAux seen l).filter startsHash = l.filter startsHash := by
  induction l generalizing seen with
  | nil => rfl
  | cons line rest ih =>
    unfold dedupAux
    by_cases h1 : pyStrip line = []
    · rw [if_pos h1]
      have hsh : startsHash line = false := by
        rcases Bool.eq_false_or_eq_true (startsHash line) with hf | ht
        · exact absurd h1 (startsHash_pyStrip_ne hf)
        · exact ht
      rw [List.filter_cons, hsh]
      simpa using ih seen
    · rw [if_neg h1]
      by_cases h2 : startsHash line
      · rw [if_pos h2, List.filter_cons, List.filter_cons, h2]
        simp only [if_pos trivial]
        rw [ih seen]
      · rw [if_neg h2]
        have h2' : startsHash line = false := by simpa using h2
        by_cases h3 : line ∈ seen
        · rw [if_pos h3, List.filter_cons, h2']
          simpa using ih seen
        · rw [if_neg h3, List.filter_cons, List.filter_cons, h2']
          simpa using ih (line :: seen)

theorem dedupAux_no_blank {seen : List Str} {l : List Str} {x : Str}
    (h : x ∈ dedupAux seen l) : pyStrip x ≠ [] := by
  induction l generalizing seen with
  | nil => simp [dedupAux] at h
  | cons line rest ih =>
    unfold dedupAux at h
    by_cases h1 : pyStrip line = []
    · rw [if_pos h1] at h
      exact ih h
    · rw [if_neg h1] at h
      by_cases h2 : startsHash line
      · rw [if_pos h2] at h
        rcases List.mem_cons.1 h with rfl | hm
        · exact h1
        · exact ih hm
      · rw [if_neg h2] at h
        by_cases h3 : line ∈ seen
        · rw [if_pos h3] at h
          exact ih h
        · rw [if_neg h3] at h
          rcases List.mem_cons.1 h with rfl | hm
          · exact h1
          · exact ih hm

theorem dedupAux_noncomments (seen : List Str) (l : List Str) :
    (dedupAux seen l).filter (fun s => !startsHash s) =
      kfoFrom seen (l.filter (fun s => !(pyStrip s).isEmpty && !startsHash s)) := by
  induction l generalizing seen with
  | nil => rfl
  | cons line rest ih =>
    unfold dedupAux
    by_cases h1 : pyStrip line = []
    · rw [if_pos h1, List.filter_cons]
      have : (!(pyStrip line).isEmpty && !startsHash line) = false := by
        simp [h1]
      rw [this]
      simp only [Bool.false_eq_true, if_false]
      exact ih seen
    · rw [if_neg h1]
      have h1' : (pyStrip line).isEmpty = false := by
        simpa [List.isEmpty_iff] using h1
      by_cases h2 : startsHash line
      · rw [if_pos h2, List.filter_cons, List.filter_cons]
        have hc : (!(pyStrip line).isEmpty && !startsHash line) = false := by
          simp [h2]
        rw [hc]
        have hc2 : (!startsHash line) = false := by simp [h2]
        rw [hc2]
        simp only [Bool.false_eq_true, if_false]
        exact ih seen
      · have h2' : startsHash line = false := by simpa using h2
        rw [if_neg h2, List.filter_cons]
        have hc : (!(pyStrip line).isEmpty && !startsHash line) = true := by
          simp [h1', h2']
        rw [hc]
        simp only [if_pos trivial]
        by_cases h3 : line ∈ seen
        · rw [if_pos h3]
          unfold kfoFrom
          rw [if_pos h3]
          exact ih seen
        · rw [if_neg h3]
          unfold kfoFrom
          rw [if_neg h3, List.filter_cons]
          have hc2 : (!startsHash line) = true := by simp [h2']
          rw [hc2]
          simp only [if_pos trivial]
          rw [ih (line :: seen)]

theorem dedupAux_idem (seen : List Str) (l : List Str) :
    dedupAux seen (dedupAux seen l) = dedupAux seen l := by
  induction l generalizing seen with
  | nil => rfl
  | cons line rest ih =>
    rw [dedupAux_cons seen line rest]
    by_cases h1 : pyStrip line = []
    · rw [if_pos h1]
      exact ih seen
    · rw [if_neg h1]
      by_cases h2 : startsHash line
      · rw [if_pos h2, dedupAux_cons, if_neg h1, if_pos h2, ih seen]
      · rw [if_neg h2]
        by_cases h3 : line ∈ seen
        · rw [if_pos h3]
          exact ih seen
        · rw [if_neg h3, dedupAux_cons, if_neg h1, if_neg h2, if_neg h3,
            ih (line :: seen)]

/-!
## Lemmas: line splitting and joining
-/

theorem splitAux_ne_nil (s cur : Str) : splitAux cur s ≠ [] := by
  induction s generalizing cur with
  | nil => simp [splitAux]
  | cons c rest ih =>
    unfold splitAux
    by_cases hc : c = '\n'
    · rw [if_pos hc]
      by_cases hr : rest.isEmpty
      · rw [if_pos hr]; simp
      · rw [if_neg hr]; simp
    · rw [if_neg hc]
      exact ih (c :: cur)

theorem splitAux_no_newline {s cur : Str} {x : Str} (hcur : '\n' ∉ cur)
    (h : x ∈ splitAux cur s) : '\n' ∉ x := by
  induction s generalizing cur with
  | nil =>
    simp only [splitAux, List.mem_singleton] at h
    subst h
    simpa using hcur
  | cons c rest ih =>
    unfold splitAux at h
    by_cases hc : c = '\n'
    · rw [if_pos hc] at h
      by_cases hr : rest.isEmpty
      · rw [if_pos hr] at h
        simp only [List.mem_singleton] at h
        subst h
        simpa using hcur
      · rw [if_neg hr] at h
        rcases List.mem_cons.1 h with rfl | hm
        · simpa using hcur
        · exact ih (by simp) hm
    · rw [if_neg hc] at h
      exact ih (by
        intro hmem
        rcases List.mem_cons.1 hmem with heq | hm
        · exact hc heq.symm
        · exact hcur hm) h

theorem splitlinesNL_no_newline {c : Str} {x : Str} (h : x ∈ splitlinesNL c) :
    '\n' ∉ x := by
  unfold splitlinesNL at h
  by_cases hc : c.isEmpty
  · rw [if_pos hc] at h
    simp at h
  · rw [if_neg hc] at h
    exact splitAux_no_newline (by simp) h

theorem splitAux_cons (cur : Str) (c : Char) (rest : Str) :
    splitAux cur (c :: rest) =
      if c = '\n' then
        (if rest.isEmpty then [cur.reverse] else cur.reverse :: splitAux [] rest)
      else splitAux (c :: cur) rest := rfl

theorem splitAux_append_clean {l : Str} (cur s : Str) (h : '\n' ∉ l) :
    splitAux cur (l ++ s) = splitAux (l.reverse ++ cur) s := by
  induction l generalizing cur with
  | nil => simp
  | cons a l ih =>
    have ha : a ≠ '\n' := by
      intro heq
      exact h (heq ▸ List.mem_cons_self a l)
    have hl : '\n' ∉ l := fun hm => h (List.mem_cons_of_mem a hm)
    show splitAux cur (a :: (l ++ s)) = splitAux ((a :: l).reverse ++ cur) s
    rw [splitAux_cons, if_neg ha, ih (a :: cur) hl]
    congr 1
    simp

theorem joinNL_ne_nil (ls : List Str) : joinNL ls ≠ [] := by
  simp [joinNL]

theorem joinNL_cons_cons (x y : Str) (tl : List Str) :
    joinNL (x :: y :: tl) = x ++ '\n' :: joinNL (y :: tl) := by
  simp [joinNL, List.intercalate, List.intersperse]

theorem joinNL_cons_of_ne_nil (a : Str) {L : List Str} (h : L ≠ []) :
    joinNL (a :: L) = a ++ '\n' :: joinNL L := by
  cases L with
  | nil => exact absurd rfl h
  | cons y tl => exact joinNL_cons_cons a y tl

theorem splitAux_join (s : Str) : ∀ (cur : Str), s.getLast? = some '\n' →
    joinNL (splitAux cur s) = cur.reverse ++ s := by
  induction s with
  | nil => intro cur h; simp at h
  | cons c rest ih =>
    intro cur h
    cases hr : rest with
    | nil =>
      subst hr
      have hc : c = '\n' := by simpa using h
      subst hc
      simp [splitAux, joinNL, List.intercalate, List.intersperse]
    | cons r rest' =>
      have hlast : rest.getLast? = some '\n' := by
        rw [hr]
        rw [hr] at h
        simpa [List.getLast?_cons_cons] using h
      rw [← hr]
      have hrne : rest.isEmpty = false := by simp [hr]
      unfold splitAux
      by_cases hc : c = '\n'
      · rw [if_pos hc, hrne]
        simp only [Bool.false_eq_true, if_false]
        rw [joinNL_cons_of_ne_nil _ (splitAux_ne_nil rest [])]
        rw [ih [] hlast]
        simp [hc]
      · rw [if_neg hc]
        rw [ih (c :: cur) hlast]
        simp

theorem joinNL_splitlinesNL {c : Str} (h : c.getLast? = some '\n') :
    joinNL (splitlinesNL c) = c := by
  have hne : c ≠ [] := by
    intro hn
    rw [hn] at h
    simp at h
  unfold splitlinesNL
  rw [if_neg (by simpa [List.isEmpty_iff] using hne)]
  simpa using splitAux_join c [] h

theorem splitlinesNL_joinNL {ls : List Str} (h1 : ls ≠ [])
    (h2 : ∀ x ∈ ls, '\n' ∉ x) : splitlinesNL (joinNL ls) = ls := by
  induction ls with
  | nil => exact absurd rfl h1
  | cons x tl ih =>
    cases tl with
    | nil =>
      have hx : '\n' ∉ x := h2 x (List.mem_cons_self _ _)
      have hj : joinNL [x] = x ++ ['\n'] := by
        simp [joinNL, List.intercalate, List.intersperse]
      rw [hj]
      unfold splitlinesNL
      rw [if_neg (by simp [List.isEmpty_iff])]
      rw [splitAux_append_clean [] ['\n'] hx]
      simp [splitAux]
    | cons y tl' =>
      have hx : '\n' ∉ x := h2 x (List.mem_cons_self _ _)
      have hJne : (joinNL (y :: tl')).isEmpty = false := by
        simpa [List.isEmpty_iff] using joinNL_ne_nil (y :: tl')
      rw [joinNL_cons_cons]
      unfold splitlinesNL
      rw [if_neg (by simp [List.isEmpty_iff])]
      rw [splitAux_append_clean [] ('\n' :: joinNL (y :: tl')) hx]
      rw [splitAux_cons, if_pos rfl, hJne]
      simp only [Bool.false_eq_true, if_false]
      have := ih (by simp) (fun z hz => h2 z (List.mem_cons_of_mem x hz))
      unfold splitlinesNL at this
      rw [if_neg (by simp [hJne])] at this
      rw [this]
      simp

/-!
## Lemmas: casefix suffix shape and filename resolution
-/

theorem sha1Words_length (msg : List Nat) : (sha1Words msg).length = 5 := by
  unfold sha1Words
  rcases (toChunks (sha1Pad msg).length (sha1Pad msg)).foldl sha1Chunk
      (1732584193, 4023233417, 2562383102, 271733878, 3285377520) with
    ⟨a, b, c, d, e⟩
  rfl

theorem wordToHex_length (w : Nat) : (wordToHex w).length = 8 := by
  simp [wordToHex]

theorem sha1Hex_length (msg : List Nat) : (sha1Hex msg).length = 40 := by
  have hflat : ∀ ws : List Nat, ((ws.map wordToHex).flatten).length = 8 * ws.length := by
    intro ws
    induction ws with
    | nil => rfl
    | cons w rest ih =>
      simp only [List.map_cons, List.flatten_cons, List.length_append, ih,
        wordToHex_length, List.length_cons]
      ring
  unfold sha1Hex
  rw [hflat, sha1Words_length]

theorem casefixSuffix_length (materialId : Str) : (casefixSuffix materialId).length = 8 := by
  unfold casefixSuffix
  rw [List.length_take, sha1Hex_length]
  decide

theorem hexDigitChar_mem (n : Nat) : hexDigitChar n ∈ hexChars := by
  unfold hexDigitChar
  rw [List.getD_eq_getElem?_getD]
  rcases h : hexChars[n]? with _ | c
  · simp only [Option.getD_none]
    decide
  · simp only [Option.getD_some]
    exact List.getElem?_mem h

theorem casefixSuffix_hex {materialId : Str} {c : Char}
    (h : c ∈ casefixSuffix materialId) : c ∈ hexChars := by
  have h1 : c ∈ sha1Hex (utf8Bytes materialId) :=
    (List.take_sublist 8 _).subset h
  unfold sha1Hex at h1
  rcases List.mem_flatten.1 h1 with ⟨piece, hp, hc⟩
  rcases List.mem_map.1 hp with ⟨w, _, rfl⟩
  rcases List.mem_map.1 hc with ⟨i, _, rfl⟩
  exact hexDigitChar_mem _

theorem resolveScanLoop_cons (tn tl : Str) (e : DirEntry) (rest : List DirEntry) :
    resolveScanLoop tn tl (e :: rest) =
      if !e.isFile then resolveScanLoop tn tl rest
      else if pyLower e.name ≠ tl then resolveScanLoop tn tl rest
      else if e.name = tn then ScanOutcome.exactHit
      else ScanOutcome.caseHit := rfl

theorem resolveScanLoop_eq_find (targetName targetLower : Str)
    (entries : List DirEntry) :
    resolveScanLoop targetName targetLower entries =
      (match entries.find? (fun e => e.isFile && pyLower e.name = targetLower) with
       | none => ScanOutcome.noHit
       | some e =>
         if e.name = targetName then ScanOutcome.exactHit else ScanOutcome.caseHit) := by
  induction entries with
  | nil => rfl
  | cons e rest ih =>
    rw [resolveScanLoop_cons]
    by_cases hcond : (e.isFile && (pyLower e.name = targetLower : Bool)) = true
    · obtain ⟨hf, hl'⟩ := Bool.and_eq_true_iff.mp hcond
      have hl : pyLower e.name = targetLower := by simpa using hl'
      have hstep : List.find? (fun e => e.isFile && pyLower e.name = targetLower)
          (e :: rest) = some e := by
        simp [List.find?_cons, hcond]
      rw [hstep]
      rw [if_neg (by simp [hf]), if_neg (by simp [hl])]
    · have hc' : (e.isFile && (pyLower e.name = targetLower : Bool)) = false := by
        simpa using hcond
      have hstep : List.find? (fun e => e.isFile && pyLower e.name = targetLower)
          (e :: rest) = List.find? (fun e => e.isFile && pyLower e.name = targetLower)
          rest := by
        simp [List.find?_cons, hc']
      rw [hstep]
      by_cases hf : e.isFile = true
      · have hl : ¬(pyLower e.name = targetLower) := by
          intro hl
          exact hcond (by simp [hf, hl])
        rw [if_neg (by simp [hf]), if_pos (by simpa using hl)]
        exact ih
      · have hf' : e.isFile = false := by simpa using hf
        rw [if_pos (by simp [hf'])]
        exact ih

theorem resolveOutputPath_eq_match (materialId : Str) (entries : List DirEntry) :
    resolveOutputPath materialId entries =
      (match resolveScanLoop (materialId ++ cifExt) (pyLower (materialId ++ cifExt))
          entries with
       | ScanOutcome.exactHit => (materialId ++ cifExt, true)
       | ScanOutcome.caseHit =>
         (materialId ++ casefixMark ++ casefixSuffix materialId ++ cifExt, false)
       | ScanOutcome.noHit => (materialId ++ cifExt, false)) := rfl

theorem resolveFirstMatch_eq_match (materialId : Str) (entries : List DirEntry) :
    resolveFirstMatch materialId entries =
      (match entries.find?
          (fun e => e.isFile && pyLower e.name = pyLower (materialId ++ cifExt)) with
       | none => (materialId ++ cifExt, false)
       | some e =>
         if e.name = materialId ++ cifExt then (materialId ++ cifExt, true)
         else (materialId ++ casefixMark ++ casefixSuffix materialId ++ cifExt, false)) := rfl

theorem resolveOutputPath_eq_firstMatch (materialId : Str) (entries : List DirEntry) :
    resolveOutputPath materialId entries = resolveFirstMatch materialId entries := by
  rw [resolveOutputPath_eq_match, resolveFirstMatch_eq_match,
    resolveScanLoop_eq_find (materialId ++ cifExt) (pyLower (materialId ++ cifExt)) entries]
  rcases h : entries.find?
      (fun e => e.isFile && pyLower e.name = pyLower (materialId ++ cifExt)) with _ | e
  · rw [h]
  · rw [h]
    by_cases he : e.name = materialId ++ cifExt
    · simp [he]
    · simp [he]

theorem resolveScanLoop_exact_mem {targetName targetLower : Str} {entries : List DirEntry}
    (h : resolveScanLoop targetName targetLower entries = ScanOutcome.exactHit) :
    entries.any (fun e => e.name = targetName) = true := by
  induction entries with
  | nil => simp [resolveScanLoop] at h
  | cons e rest ih =>
    unfold resolveScanLoop at h
    by_cases hf : !e.isFile
    · rw [if_pos hf] at h
      simpa using Or.inr (by simpa using ih h)
    · rw [if_neg hf] at h
      by_cases hl : pyLower e.name ≠ targetLower
      · rw [if_pos hl] at h
        simpa using Or.inr (by simpa using ih h)
      · rw [if_neg hl] at h
        by_cases he : e.name = targetName
        · simpa using Or.inl (by simpa using he)
        · rw [if_neg he] at h
          exact absurd h (by simp)

theorem resolveOutputPath_snd_true {materialId : Str} {entries : List DirEntry}
    (h : (resolveOutputPath materialId entries).2 = true) :
    resolveScanLoop (materialId ++ cifExt) (pyLower (materialId ++ cifExt)) entries =
        ScanOutcome.exactHit ∧
      (resolveOutputPath materialId entries).1 = materialId ++ cifExt := by
  rcases hs : resolveScanLoop (materialId ++ cifExt) (pyLower (materialId ++ cifExt))
      entries with _ | _ | _
  · refine ⟨rfl, ?_⟩
    rw [resolveOutputPath_eq_match, hs]
  · exfalso
    rw [resolveOutputPath_eq_match, hs] at h
    simp at h
  · exfalso
    rw [resolveOutputPath_eq_match, hs] at h
    simp at h

theorem downloadCif_skip {materialId : Str} {entries : List DirEntry}
    (net : Str → NetResult) (writeOk : Bool)
    (h : (resolveOutputPath materialId entries).2 = true) :
    downloadCif materialId entries net writeOk = (true, false) := by
  obtain ⟨hscan, hname⟩ := resolveOutputPath_snd_true h
  have hany := resolveScanLoop_exact_mem hscan
  unfold downloadCif
  simp [h, hname, hany]

/-!
## Lemmas: the download log index and its updates
-/

theorem setSelf {l : List α} : ∀ {i : Nat} {a : α}, l[i]? = some a → l.set i a = l := by
  induction l with
  | nil => intro i a h; simp at h
  | cons x xs ih =>
    intro i a h
    cases i with
    | zero =>
      simp only [List.getElem?_cons_zero, Option.some.injEq] at h
      simp [h]
    | succ n =>
      simp only [List.getElem?_cons_succ] at h
      simp [ih h]

theorem findIdx?_set_same {a : α} {p : α → Bool} :
    ∀ (l : List α) (i j : Nat), (∀ b, l[i]? = some b → p b = p a) →
      (l.set i a).findIdx? p j = l.findIdx? p j := by
  intro l
  induction l with
  | nil => intro i j _; rfl
  | cons x xs ih =>
    intro i j h
    cases i with
    | zero =>
      have hx : p x = p a := h x (by simp)
      simp only [List.set_cons_zero, List.findIdx?_cons, hx]
    | succ n =>
      simp only [List.set_cons_succ, List.findIdx?_cons]
      rw [ih n (j + 1) (fun b hb => h b (by simpa using hb))]

theorem filter_set_of_false {a : α} {p : α → Bool} :
    ∀ (l : List α) (i : Nat) (b : α), l[i]? = some b → p b = false → p a = false →
      (l.set i a).filter p = l.filter p := by
  intro l
  induction l with
  | nil => intro i b h _ _; simp at h
  | cons x xs ih =>
    intro i b h hb ha
    cases i with
    | zero =>
      simp only [List.getElem?_cons_zero, Option.some.injEq] at h
      subst h
      simp only [List.set_cons_zero, List.filter_cons, hb, ha]
      simp
    | succ n =>
      simp only [List.getElem?_cons_succ] at h
      simp only [List.set_cons_succ, List.filter_cons]
      rw [ih n b h hb ha]

theorem findIdx?_some_pred {l : List α} {p : α → Bool} {i : Nat}
    (h : l.findIdx? p = some i) : ∃ b, l[i]? = some b ∧ p b = true := by
  rcases List.findIdx?_eq_some_iff_getElem.1 h with ⟨hlt, hp, _⟩
  exact ⟨l[i], by simp [List.getElem?_eq_getElem hlt], hp⟩

theorem buildIndexAux_lookup (key : Str) (hkey : key ≠ []) :
    ∀ (rows : List LogRow) (acc : List (Str × Nat)) (i : Nat),
    (buildIndexAux acc i rows).lookup key =
      (acc.lookup key).or (rows.findIdx? (fun row => pyStrip row.1 = key) i) := by
  intro rows
  induction rows with
  | nil => intro acc i; simp [buildIndexAux, Option.or_none]
  | cons row rest ih =>
    intro acc i
    unfold buildIndexAux
    by_cases hg : (!(pyStrip row.1).isEmpty && (acc.lookup (pyStrip row.1)).isNone) = true
    · rw [if_pos hg]
      obtain ⟨_, hnone'⟩ := Bool.and_eq_true_iff.mp hg
      have hnone : acc.lookup (pyStrip row.1) = none := by
        simpa [Option.isNone_iff_eq_none] using hnone'
      rw [ih ((pyStrip row.1, i) :: acc) (i + 1)]
      rw [List.findIdx?_cons]
      by_cases hk : pyStrip row.1 = key
      · have hl : ((pyStrip row.1, i) :: acc).lookup key = some i := by
          rw [List.lookup_cons]
          simp [hk]
        rw [hl]
        have hacc : acc.lookup key = none := hk ▸ hnone
        simp [hk, hacc]
      · have hl : ((pyStrip row.1, i) :: acc).lookup key = acc.lookup key := by
          rw [List.lookup_cons]
          have : (key == pyStrip row.1) = false := by
            simp
            intro heq
            exact hk heq.symm
          simp [this]
        rw [hl]
        have hp : (decide (pyStrip row.1 = key)) = false := by simp [hk]
        rw [hp]
        simp
    · rw [if_neg hg]
      rw [ih acc (i + 1)]
      rw [List.findIdx?_cons]
      by_cases hk : pyStrip row.1 = key
      · have hne : ¬(pyStrip row.1).isEmpty := by
          simp [List.isEmpty_iff, hk, hkey]
        have hsome : (acc.lookup (pyStrip row.1)).isNone = false := by
          rcases Bool.eq_false_or_eq_true (acc.lookup (pyStrip row.1)).isNone with ht | hf
          · exact absurd (by simp [hne, ht]) hg
          · exact hf
        rcases ho : acc.lookup key with _ | j
        · rw [← hk] at ho
          rw [ho] at hsome
          simp at hsome
        · simp [Option.or_some]
      · have hp : (decide (pyStrip row.1 = key)) = false := by simp [hk]
        rw [hp]
        simp

theorem buildIndex_lookup {rows : List LogRow} {key : Str} (hkey : key ≠ []) :
    (buildIndex rows).lookup key =
      rows.findIdx? (fun row => pyStrip row.1 = key) := by
  unfold buildIndex
  rw [buildIndexAux_lookup key hkey rows [] 0]
  simp

theorem processOne_some {rows : List LogRow} {index : List (Str × Nat)}
    {id : Str} {succ : Bool} {i : Nat} (h : index.lookup id = some i) :
    processOne rows index id succ = (rows.set i (id, boolStr succ), index) := by
  unfold processOne
  rw [h]

theorem processOne_none {rows : List LogRow} {index : List (Str × Nat)}
    {id : Str} {succ : Bool} (h : index.lookup id = none) :
    processOne rows index id succ =
      (rows ++ [(id, boolStr succ)], (id, rows.length) :: index) := by
  unfold processOne
  rw [h]

theorem specLogStep_some {rows : List LogRow} {id : Str} {succ : Bool} {i : Nat}
    (h : rows.findIdx? (fun row => pyStrip row.1 = id) = some i) :
    specLogStep rows id succ = rows.set i (id, boolStr succ) := by
  unfold specLogStep
  rw [h]

theorem specLogStep_none {rows : List LogRow} {id : Str} {succ : Bool}
    (h : rows.findIdx? (fun row => pyStrip row.1 = id) = none) :
    specLogStep rows id succ = rows ++ [(id, boolStr succ)] := by
  unfold specLogStep
  rw [h]

theorem processOne_fst_eq_spec {rows : List LogRow} {index : List (Str × Nat)}
    {id : Str} {succ : Bool}
    (hinv : ∀ key : Str, key ≠ [] →
      index.lookup key = rows.findIdx? (fun row => pyStrip row.1 = key))
    (hid : id ≠ []) :
    (processOne rows index id succ).1 = specLogStep rows id succ := by
  rcases hfi : rows.findIdx? (fun row => pyStrip row.1 = id) with _ | i
  · rw [processOne_none (by rw [hinv id hid, hfi]), specLogStep_none hfi]
  · rw [processOne_some (by rw [hinv id hid, hfi]), specLogStep_some hfi]

theorem processOne_snd_inv {rows : List LogRow} {index : List (Str × Nat)}
    {id : Str} {succ : Bool}
    (hinv : ∀ key : Str, key ≠ [] →
      index.lookup key = rows.findIdx? (fun row => pyStrip row.1 = key))
    (hid : id ≠ []) (hkeyid : pyStrip id = id) :
    ∀ key : Str, key ≠ [] →
      (processOne rows index id succ).2.lookup key =
        (specLogStep rows id succ).findIdx? (fun row => pyStrip row.1 = key) := by
  intro key hkey
  rcases hfi : rows.findIdx? (fun row => pyStrip row.1 = id) with _ | i
  · rw [processOne_none (by rw [hinv id hid, hfi]), specLogStep_none hfi]
    by_cases hk : key = id
    · subst hk
      have hr : (rows ++ [(key, boolStr succ)]).findIdx?
          (fun row => pyStrip row.1 = key) = some rows.length := by
        rw [List.findIdx?_append, hfi]
        have hnew : [(key, boolStr succ)].findIdx?
            (fun row => pyStrip row.1 = key) = some 0 := by
          simp [List.findIdx?_cons, hkeyid]
        rw [hnew]
        simp
      rw [hr, List.lookup_cons]
      simp
    · have hr : (rows ++ [(id, boolStr succ)]).findIdx?
          (fun row => pyStrip row.1 = key) = index.lookup key := by
        rw [List.findIdx?_append]
        have hnew : [(id, boolStr succ)].findIdx?
            (fun row => pyStrip row.1 = key) = none := by
          simp [List.findIdx?_cons, hkeyid]
          intro heq
          exact hk heq.symm
        rw [hnew, hinv key hkey]
        simp [Option.or_none]
      rw [hr, List.lookup_cons]
      have hbeq : (key == id) = false := by simp [hk]
      simp [hbeq]
  · rw [processOne_some (by rw [hinv id hid, hfi]), specLogStep_some hfi]
    rw [hinv key hkey]
    obtain ⟨b, hb, hpb⟩ := findIdx?_some_pred hfi
    have hstrip : pyStrip b.1 = id := by simpa using hpb
    rw [findIdx?_set_same rows i 0]
    intro c hc
    rw [hb] at hc
    injection hc with hc
    subst hc
    simp [hstrip, hkeyid]

theorem specLogStep_nodup {rows : List LogRow} {id : Str} {succ : Bool}
    (hn : (rows.map (fun row => pyStrip row.1)).Nodup) (hkeyid : pyStrip id = id) :
    ((specLogStep rows id succ).map (fun row => pyStrip row.1)).Nodup := by
  rcases hfi : rows.findIdx? (fun row => pyStrip row.1 = id) with _ | i
  · rw [specLogStep_none hfi]
    rw [List.map_append]
    have hid2 : id ∉ rows.map (fun row => pyStrip row.1) := by
      intro hm
      rcases List.mem_map.1 hm with ⟨row, hrow, hstrip⟩
      have := List.findIdx?_eq_none_iff.1 hfi row hrow
      simp [hstrip] at this
    rw [List.nodup_append]
    refine ⟨hn, by simp, ?_⟩
    intro a ha hb
    simp only [List.map_cons, List.map_nil, List.mem_singleton] at hb
    rw [hb] at ha
    simp only [hkeyid] at ha
    exact hid2 ha
  · rw [specLogStep_some hfi]
    obtain ⟨b, hb, hpb⟩ := findIdx?_some_pred hfi
    have hstrip : pyStrip b.1 = id := by simpa using hpb
    rw [List.map_set]
    have hset : (rows.map (fun row => pyStrip row.1)).set i (pyStrip id) =
        rows.map (fun row => pyStrip row.1) := by
      apply setSelf
      rw [List.getElem?_map, hb]
      simp [hstrip, hkeyid]
    rw [hset]
    exact hn

theorem specLogStep_filter_ne {rows : List LogRow} {id : Str} {succ : Bool} {x : Str}
    (hne : id ≠ x) (hkeyid : pyStrip id = id) :
    (specLogStep rows id succ).filter (fun row => pyStrip row.1 = x) =
      rows.filter (fun row => pyStrip row.1 = x) := by
  rcases hfi : rows.findIdx? (fun row => pyStrip row.1 = id) with _ | i
  · rw [specLogStep_none hfi]
    rw [List.filter_append]
    have hsing : [(id, boolStr succ)].filter (fun row => pyStrip row.1 = x) = [] := by
      simp [List.filter_cons, hkeyid, hne]
    rw [hsing, List.append_nil]
  · rw [specLogStep_some hfi]
    obtain ⟨b, hb, hpb⟩ := findIdx?_some_pred hfi
    have hstrip : pyStrip b.1 = id := by simpa using hpb
    apply filter_set_of_false rows i b hb
    · simp [hstrip, hne]
    · simp [hkeyid, hne]

theorem runLogAux_eq_spec :
    ∀ (completed : List (Str × Bool)) (rows : List LogRow) (index : List (Str × Nat)),
    (∀ key : Str, key ≠ [] →
      index.lookup key = rows.findIdx? (fun row => pyStrip row.1 = key)) →
    (∀ q ∈ completed, pyStrip q.1 = q.1 ∧ q.1 ≠ []) →
    (runLogAux rows index completed).1 = specLogFold rows completed ∧
      (runLogAux rows index completed).2 = specLogSnapshots rows completed := by
  intro completed
  induction completed with
  | nil => intro rows index _ _; exact ⟨rfl, rfl⟩
  | cons q rest ih =>
    intro rows index hinv hids
    obtain ⟨hkeyid, hid⟩ := hids q (List.mem_cons_self _ _)
    rcases q with ⟨id, succ⟩
    have hfst : (processOne rows index id succ).1 = specLogStep rows id succ :=
      processOne_fst_eq_spec hinv hid
    have hinv' := @processOne_snd_inv rows index id succ hinv hid hkeyid
    rw [← hfst] at hinv'
    have ihres := ih (processOne rows index id succ).1 (processOne rows index id succ).2
      hinv' (fun p hp => hids p (List.mem_cons_of_mem _ hp))
    refine ⟨?_, ?_⟩
    · show (runLogAux (processOne rows index id succ).1
          (processOne rows index id succ).2 rest).1 =
        specLogFold (specLogStep rows id succ) rest
      rw [← hfst]
      exact ihres.1
    · show (processOne rows index id succ).1 ::
          (runLogAux (processOne rows index id succ).1
            (processOne rows index id succ).2 rest).2 =
        specLogStep rows id succ :: specLogSnapshots (specLogStep rows id succ) rest
      rw [← hfst]
      rw [ihres.2]

theorem specLogSnapshots_length (rows : List LogRow) (completed : List (Str × Bool)) :
    (specLogSnapshots rows completed).length = completed.length := by
  induction completed generalizing rows with
  | nil => rfl
  | cons q rest ih =>
    rcases q with ⟨id, succ⟩
    unfold specLogSnapshots
    simp [ih]

theorem specLogSnapshots_nodup {completed : List (Str × Bool)} :
    ∀ {rows : List LogRow},
    (rows.map (fun row => pyStrip row.1)).Nodup →
    (∀ q ∈ completed, pyStrip q.1 = q.1 ∧ q.1 ≠ []) →
    ∀ s ∈ specLogSnapshots rows completed, (s.map (fun row => pyStrip row.1)).Nodup := by
  induction completed with
  | nil => intro rows _ _ s hs; simp [specLogSnapshots] at hs
  | cons q rest ih =>
    intro rows hn hids s hs
    obtain ⟨hkeyid, _⟩ := hids q (List.mem_cons_self _ _)
    rcases q with ⟨id, succ⟩
    unfold specLogSnapshots at hs
    have hstep : ((specLogStep rows id succ).map (fun row => pyStrip row.1)).Nodup :=
      specLogStep_nodup hn hkeyid
    rcases List.mem_cons.1 hs with rfl | hm
    · exact hstep
    · exact ih hstep (fun p hp => hids p (List.mem_cons_of_mem _ hp)) s hm

theorem specLogFold_nodup {completed : List (Str × Bool)} :
    ∀ {rows : List LogRow},
    (rows.map (fun row => pyStrip row.1)).Nodup →
    (∀ q ∈ completed, pyStrip q.1 = q.1 ∧ q.1 ≠ []) →
    ((specLogFold rows completed).map (fun row => pyStrip row.1)).Nodup := by
  induction completed with
  | nil => intro rows hn _; exact hn
  | cons q rest ih =>
    intro rows hn hids
    obtain ⟨hkeyid, _⟩ := hids q (List.mem_cons_self _ _)
    rcases q with ⟨id, succ⟩
    unfold specLogFold
    exact ih (specLogStep_nodup hn hkeyid) (fun p hp => hids p (List.mem_cons_of_mem _ hp))

theorem specLogFold_filter_ne {completed : List (Str × Bool)} {x : Str} :
    ∀ {rows : List LogRow},
    (∀ q ∈ completed, pyStrip q.1 = q.1 ∧ q.1 ≠ x) →
    (specLogFold rows completed).filter (fun row => pyStrip row.1 = x) =
      rows.filter (fun row => pyStrip row.1 = x) := by
  induction completed with
  | nil => intro rows _; rfl
  | cons q rest ih =>
    intro rows hids
    obtain ⟨hkeyid, hne⟩ := hids q (List.mem_cons_self _ _)
    rcases q with ⟨id, succ⟩
    unfold specLogFold
    rw [ih (fun p hp => hids p (List.mem_cons_of_mem _ hp))]
    exact specLogStep_filter_ne hne hkeyid

theorem specLogSnapshots_filter_ne {completed : List (Str × Bool)} {x : Str} :
    ∀ {rows : List LogRow},
    (∀ q ∈ completed, pyStrip q.1 = q.1 ∧ q.1 ≠ x) →
    ∀ s ∈ specLogSnapshots rows completed,
      s.filter (fun row => pyStrip row.1 = x) =
        rows.filter (fun row => pyStrip row.1 = x) := by
  induction completed with
  | nil => intro rows _ s hs; simp [specLogSnapshots] at hs
  | cons q rest ih =>
    intro rows hids s hs
    obtain ⟨hkeyid, hne⟩ := hids q (List.mem_cons_self _ _)
    rcases q with ⟨id, succ⟩
    unfold specLogSnapshots at hs
    rcases List.mem_cons.1 hs with rfl | hm
    · exact specLogStep_filter_ne hne hkeyid
    · rw [ih (fun p hp => hids p (List.mem_cons_of_mem _ hp)) s hm]
      exact specLogStep_filter_ne hne hkeyid

/-!
## Lemmas: dissecting `runMain`
-/

theorem iterMaterialIds_ok {fileLines : Option (List Str)} {mids : List Str}
    (h : iterMaterialIds fileLines = Except.ok mids) :
    ∃ lines, fileLines = some lines ∧ mids = collectIds lines ∧ mids ≠ [] := by
  rcases hl : fileLines with _ | lines
  · rw [hl] at h
    simp [iterMaterialIds] at h
  · rw [hl] at h
    simp only [iterMaterialIds] at h
    by_cases he : (collectIds lines).isEmpty
    · rw [if_pos he] at h
      exact absurd h (by simp)
    · rw [if_neg he] at h
      injection h with h
      refine ⟨lines, rfl, h.symm, ?_⟩
      rw [← h]
      simpa [List.isEmpty_iff] using he

theorem runMain_finished {inp : RunInput} {e : Nat} {fr : List LogRow}
    {w : List (List LogRow)} {tasks : List Str}
    (h : runMain inp = RunOutcome.finished e fr w tasks) :
    ∃ mids, iterMaterialIds inp.idsFileLines = Except.ok mids ∧
      tasks = idsToProcess mids inp.logRows ∧ tasks ≠ [] ∧
      fr = (runLogAux inp.logRows (buildIndex inp.logRows) inp.completed).1 ∧
      w = (runLogAux inp.logRows (buildIndex inp.logRows) inp.completed).2 ∧
      e = (if 0 < (inp.completed.filter (fun r => r.2)).length then 0 else 1) := by
  rcases hiter : iterMaterialIds inp.idsFileLines with u | mids
  · simp only [runMain] at h
    simp only [hiter] at h
    simp at h
  · simp only [runMain] at h
    simp only [hiter] at h
    by_cases htodo : (idsToProcess mids inp.logRows).isEmpty
    · rw [if_pos htodo] at h
      simp at h
    · rw [if_neg htodo] at h
      refine ⟨mids, rfl, ?_⟩
      cases h
      exact ⟨rfl, by simpa [List.isEmpty_iff] using htodo, rfl, rfl, rfl⟩

theorem runMain_earlyError {inp : RunInput}
    (h : iterMaterialIds inp.idsFileLines = Except.error ()) :
    runMain inp = RunOutcome.earlyError := by
  simp only [runMain]
  rw [h]

theorem mem_idsToProcess_iff {mids : List Str} {rows : List LogRow} {x : Str} :
    x ∈ idsToProcess mids rows ↔
      x ∈ mids ∧ previouslyDownloadedFlag rows (buildIndex rows) x = false := by
  unfold idsToProcess
  rw [List.mem_filter]
  simp

theorem previouslyDownloadedFlag_eq {rows : List LogRow} {x : Str} (hx : x ≠ []) :
    previouslyDownloadedFlag rows (buildIndex rows) x =
      (match rows.findIdx? (fun row => pyStrip row.1 = x) with
       | some i => truthyFlag (rows.getD i ([], [])).2
       | none => false) := by
  unfold previouslyDownloadedFlag
  rw [buildIndex_lookup hx]

/-!
## Lemmas: scraper termination
-/

theorem runScraper_succ (pages : Nat → PageModel) (fuel p : Nat) (ids : List Str) :
    runScraper pages (fuel + 1) p ids =
      (if (pages p).rowAnchors.isEmpty then some (ids, p)
       else if (linkRows (pages p)).isEmpty then some (ids, p)
       else
         match (pages p).nextCtl with
         | none => some (appendNew ids ((linkRows (pages p)).map extractMaterialId), p)
         | some ctl =>
           if nextDisabled ctl then
             some (appendNew ids ((linkRows (pages p)).map extractMaterialId), p)
           else runScraper pages fuel (p + 1)
             (appendNew ids ((linkRows (pages p)).map extractMaterialId))) := by
  rfl

theorem runScraper_stop {pages : Nat → PageModel} :
    ∀ (fuel p : Nat) (ids ids' : List Str) (q : Nat),
    runScraper pages fuel p ids = some (ids', q) →
    p ≤ q ∧ scrapeStop (pages q) = true ∧
      ∀ r, p ≤ r → r < q → scrapeStop (pages r) = false := by
  intro fuel
  induction fuel with
  | zero =>
    intro p ids ids' q h
    simp [runScraper] at h
  | succ fuel ih =>
    intro p ids ids' q h
    rw [runScraper_succ] at h
    by_cases hrows : (pages p).rowAnchors.isEmpty
    · rw [if_pos hrows] at h
      injection h with h
      injection h with h1 h2
      subst h2
      refine ⟨Nat.le_refl p, by simp [scrapeStop, hrows], ?_⟩
      intro r h1 h2
      omega
    · rw [if_neg hrows] at h
      by_cases hlinks : (linkRows (pages p)).isEmpty
      · rw [if_pos hlinks] at h
        injection h with h
        injection h with h1 h2
        subst h2
        refine ⟨Nat.le_refl p, by simp [scrapeStop, hlinks], ?_⟩
        intro r h1 h2
        omega
      · rw [if_neg hlinks] at h
        rcases hnext : (pages p).nextCtl with _ | ctl
        · rw [hnext] at h
          injection h with h
          injection h with h1 h2
          subst h2
          refine ⟨Nat.le_refl p, by simp [scrapeStop, hnext], ?_⟩
          intro r h1 h2
          omega
        · rw [hnext] at h
          simp only [] at h
          by_cases hdis : nextDisabled ctl
          · rw [if_pos hdis] at h
            injection h with h
            injection h with h1 h2
            subst h2
            refine ⟨Nat.le_refl p, by simp [scrapeStop, hnext, hdis], ?_⟩
            intro r h1 h2
            omega
          · rw [if_neg hdis] at h
            obtain ⟨hle, hstop, hrange⟩ := ih (p + 1) _ ids' q h
            refine ⟨by omega, hstop, ?_⟩
            intro r hr1 hr2
            rcases Nat.eq_or_lt_of_le hr1 with rfl | hlt
            · have hdis' : nextDisabled ctl = false := by simpa using hdis
              simp [scrapeStop, hrows, hlinks, hnext, hdis']
            · exact hrange r (by omega) hr2

theorem runScraper_stops_here {pages : Nat → PageModel} {p : Nat} (fuel : Nat)
    (ids : List Str) (h : scrapeStop (pages p) = true) :
    ∃ ids', runScraper pages (fuel + 1) p ids = some (ids', p) := by
  rw [runScraper_succ]
  by_cases hrows : (pages p).rowAnchors.isEmpty
  · exact ⟨ids, by rw [if_pos hrows]⟩
  · rw [if_neg hrows]
    by_cases hlinks : (linkRows (pages p)).isEmpty
    · exact ⟨ids, by rw [if_pos hlinks]⟩
    · rw [if_neg hlinks]
      rcases hnext : (pages p).nextCtl with _ | ctl
      · exact ⟨appendNew ids ((linkRows (pages p)).map extractMaterialId), rfl⟩
      · by_cases hdis : nextDisabled ctl
        · refine ⟨appendNew ids ((linkRows (pages p)).map extractMaterialId), ?_⟩
          simp [hdis]
        · exfalso
          unfold scrapeStop at h
          rw [hnext] at h
          have hdis' : nextDisabled ctl = false := by simpa using hdis
          simp [hrows, hlinks, hdis'] at h

/-!
## Lemmas: the presence checker
-/

theorem mem_sortedSet_iff {l : List Str} {x : Str} : x ∈ sortedSet l ↔ x ∈ l := by
  unfold sortedSet
  rw [(@List.perm_insertionSort Str (· ≤ ·) _ l.dedup).mem_iff]
  exact List.mem_dedup

theorem sortedSet_sorted (l : List Str) : (sortedSet l).Sorted (· ≤ ·) :=
  List.sorted_insertionSort (· ≤ ·) l.dedup

theorem sortedSet_nodup (l : List Str) : (sortedSet l).Nodup :=
  ((@List.perm_insertionSort Str (· ≤ ·) _ l.dedup).nodup_iff).2 (List.nodup_dedup l)

theorem mem_iterCifNames_iff {entries : List DirEntry} {x : Str} :
    x ∈ iterCifNames entries ↔
      ∃ e ∈ entries, e.isFile = true ∧ pyLower (pathSuffix e.name) = cifExt ∧
        x = stripCasefix (pathStem e.name) := by
  induction entries with
  | nil => simp [iterCifNames]
  | cons e rest ih =>
    unfold iterCifNames
    by_cases hfile : e.isFile = true
    · by_cases hsuf : pyLower (pathSuffix e.name) = cifExt
      · rw [if_pos (by simp [hfile, hsuf])]
        simp only [List.mem_cons, ih]
        constructor
        · rintro (rfl | ⟨e', he', hprops⟩)
          · exact ⟨e, Or.inl rfl, hfile, hsuf, rfl⟩
          · exact ⟨e', Or.inr he', hprops⟩
        · rintro ⟨e', he', hf, hs, hx⟩
          rcases he' with rfl | hm
          · exact Or.inl hx
          · exact Or.inr ⟨e', hm, hf, hs, hx⟩
      · rw [if_neg (by simp [hsuf])]
        rw [ih]
        constructor
        · rintro ⟨e', he', hprops⟩
          exact ⟨e', List.mem_cons_of_mem _ he', hprops⟩
        · rintro ⟨e', he', hf, hs, hx⟩
          rcases List.mem_cons.1 he' with rfl | hm
          · exact absurd hs hsuf
          · exact ⟨e', hm, hf, hs, hx⟩
    · rw [if_neg (by simp [hfile])]
      rw [ih]
      constructor
      · rintro ⟨e', he', hprops⟩
        exact ⟨e', List.mem_cons_of_mem _ he', hprops⟩
      · rintro ⟨e', he', hf, hs, hx⟩
        rcases List.mem_cons.1 he' with rfl | hm
        · exact absurd hf hfile
        · exact ⟨e', hm, hf, hs, hx⟩

theorem checkRun_missing_mem {idLines : List Str} {entries : List DirEntry} {x : Str} :
    x ∈ (checkRun idLines entries).missing ↔
      x ∈ iterIdsCheck idLines ∧ x ∉ iterCifNames entries := by
  unfold checkRun
  rw [mem_sortedSet_iff, List.mem_filter]
  simp [List.contains_iff_exists_mem_beq]

theorem checkRun_extra_mem {idLines : List Str} {entries : List DirEntry} {x : Str} :
    x ∈ (checkRun idLines entries).extra ↔
      x ∈ iterCifNames entries ∧ x ∉ iterIdsCheck idLines := by
  unfold checkRun
  rw [mem_sortedSet_iff, List.mem_filter]
  simp [List.contains_iff_exists_mem_beq]

/-!
## Claim theorems
-/

/-- **C1 (amended).** Per-identifier filename resolution is decided by the
first case-insensitive match in directory iteration order
(`resolveFirstMatch`): if that first match has identical case the identifier
is treated as already downloaded (skip outcome, success, no network request);
if it is differently cased, the write target is the casefix name whose suffix
is the first 8 characters of the SHA-1 hex digest of the identifier — a
deterministic function `casefixSuffix` of the identifier alone, 8 lowercase
hex characters long; if no entry matches case-insensitively, the plain
`id.cif` target is used.  (The claim as frozen instead keys the skip on the
mere existence of an exact-case file; `claimC1_counterexample` shows that a
differently-cased file earlier in iteration order overrides it.) -/
theorem claimC1_resolution (materialId : Str) (entries : List DirEntry)
    (net : Str → NetResult) (writeOk : Bool) :
    resolveOutputPath materialId entries = resolveFirstMatch materialId entries ∧
    (casefixSuffix materialId).length = 8 ∧
    (∀ c ∈ casefixSuffix materialId, c ∈ hexChars) ∧
    ((resolveOutputPath materialId entries).2 = true →
      downloadCif materialId entries net writeOk = (true, false)) :=
  ⟨resolveOutputPath_eq_firstMatch materialId entries,
   casefixSuffix_length materialId,
   fun _ hc => casefixSuffix_hex hc,
   fun h => downloadCif_skip net writeOk h⟩

/-- Witness for C1: with the single exact-case file `ABC.cif` present, the
resolver reports "already exists" and `download_cif` succeeds without
touching the network. -/
theorem claimC1_witness :
    (resolveOutputPath ("ABC".toList) [⟨"ABC.cif".toList, true⟩]).2 = true ∧
    downloadCif ("ABC".toList) [⟨"ABC.cif".toList, true⟩]
      (fun _ => NetResult.urlErr) true = (true, false) :=
  ⟨by decide,
   (claimC1_resolution ("ABC".toList) [⟨"ABC.cif".toList, true⟩]
     (fun _ => NetResult.urlErr) true).2.2.2 (by decide)⟩

/-- Counterexample to C1 as frozen: the directory holds both `abc.cif` and
the exact-case `ABC.cif`, but iteration meets `abc.cif` first, so the code
does *not* treat identifier `ABC` as already downloaded (the skip flag is
false) and `download_cif` performs a network request — the claim requires a
skip with no request whenever the exact-case file exists. -/
theorem claimC1_counterexample :
    (resolveOutputPath ("ABC".toList)
      [⟨"abc.cif".toList, true⟩, ⟨"ABC.cif".toList, true⟩]).2 = false ∧
    (∃ e ∈ [DirEntry.mk ("abc.cif".toList) true, DirEntry.mk ("ABC.cif".toList) true],
      e.isFile = true ∧ e.name = "ABC".toList ++ cifExt) ∧
    (downloadCif ("ABC".toList)
      [⟨"abc.cif".toList, true⟩, ⟨"ABC.cif".toList, true⟩]
      (fun _ => NetResult.urlErr) true).2 = true := by
  decide

/-- **C2.** For a run that submits at least one identifier (the `finished`
outcome), the exit code is nonzero exactly when no completed task succeeded;
one success — including a skip-as-success — forces exit code 0 no matter how
many others failed. -/
theorem claimC2_exitCode (inp : RunInput) (e : Nat) (fr : List LogRow)
    (w : List (List LogRow)) (tasks : List Str)
    (hrun : runMain inp = RunOutcome.finished e fr w tasks)
    (hperm : (inp.completed.map Prod.fst).Perm tasks) :
    e ≠ 0 ↔ (inp.completed.filter (fun r => r.2)).length = 0 := by
  obtain ⟨mids, _, _, _, _, _, he⟩ := runMain_finished hrun
  subst he
  by_cases hc : 0 < (inp.completed.filter (fun r => r.2)).length
  · rw [if_pos hc]
    simp only [ne_eq, not_true_eq_false, false_iff]
    omega
  · rw [if_neg hc]
    simp only [ne_eq, one_ne_zero, not_false_eq_true, true_iff]
    omega

/-- Witness for C2: a run whose single task succeeds exits 0. -/
theorem claimC2_witness :
    (0 : Nat) ≠ 0 ↔
      (([(("A".toList : Str), true)]).filter (fun r => r.2)).length = 0 :=
  claimC2_exitCode ⟨some ["A".toList], [], [(("A".toList : Str), true)]⟩ 0
    [("A".toList, "True".toList)] [[("A".toList, "True".toList)]] ["A".toList]
    (by decide) (by decide)

/-- **C3.** An identifier `X` whose first row in the loaded log has a truthy
`downloaded` field is skipped entirely: it is not among the submitted
download tasks (so no network request is issued for it), and both the final
log and every persisted snapshot carry exactly the rows for `X` that the
loaded log already had — no new row is written for it. -/
theorem claimC3_skip (inp : RunInput) (X : Str) (i : Nat) (e : Nat)
    (fr : List LogRow) (w : List (List LogRow)) (tasks : List Str)
    (hX : pyStrip X = X) (hXne : X ≠ [])
    (hidx : inp.logRows.findIdx? (fun row => pyStrip row.1 = X) = some i)
    (htruthy : truthyFlag (inp.logRows.getD i ([], [])).2 = true)
    (hrun : runMain inp = RunOutcome.finished e fr w tasks)
    (hperm : (inp.completed.map Prod.fst).Perm tasks) :
    X ∉ tasks ∧
    fr.filter (fun row => pyStrip row.1 = X) =
      inp.logRows.filter (fun row => pyStrip row.1 = X) ∧
    ∀ s ∈ w, s.filter (fun row => pyStrip row.1 = X) =
      inp.logRows.filter (fun row => pyStrip row.1 = X) := by
  obtain ⟨mids, hiter, htasks, htne, hfr, hw, he⟩ := runMain_finished hrun
  obtain ⟨lines, hlines, hmids, hmidsne⟩ := iterMaterialIds_ok hiter
  have hflag : previouslyDownloadedFlag inp.logRows (buildIndex inp.logRows) X = true := by
    rw [previouslyDownloadedFlag_eq hXne, hidx]
    exact htruthy
  have hXnot : X ∉ tasks := by
    rw [htasks]
    intro hmem
    rw [mem_idsToProcess_iff] at hmem
    rw [hflag] at hmem
    simp at hmem
  have hcomp2 : ∀ q ∈ inp.completed, pyStrip q.1 = q.1 ∧ q.1 ≠ [] := by
    intro q hq
    have hmem : q.1 ∈ tasks := hperm.subset (List.mem_map_of_mem Prod.fst hq)
    have hmids' : q.1 ∈ mids := by
      rw [htasks] at hmem
      exact (mem_idsToProcess_iff.1 hmem).1
    rw [hmids] at hmids'
    obtain ⟨hs, hne, _⟩ := mem_collectIds hmids'
    exact ⟨hs, hne⟩
  have hcomp : ∀ q ∈ inp.completed, pyStrip q.1 = q.1 ∧ q.1 ≠ X := by
    intro q hq
    have hmem : q.1 ∈ tasks := hperm.subset (List.mem_map_of_mem Prod.fst hq)
    exact ⟨(hcomp2 q hq).1, fun heq => hXnot (heq ▸ hmem)⟩
  have hspec := runLogAux_eq_spec inp.completed inp.logRows (buildIndex inp.logRows)
    (fun key hkey => buildIndex_lookup hkey) hcomp2
  refine ⟨hXnot, ?_, ?_⟩
  · rw [hfr, hspec.1]
    exact specLogFold_filter_ne hcomp
  · intro s hs
    rw [hw, hspec.2] at hs
    exact specLogSnapshots_filter_ne hcomp s hs

/-- Witness for C3: with identifier `X` logged as downloaded, a re-run on
input ` X , Y` submits only `Y` and leaves the `X` row untouched. -/
theorem claimC3_witness :
    ("X".toList : Str) ∉ ["Y".toList] ∧
    ([("X".toList, "True".toList), ("Y".toList, "False".toList)] : List LogRow).filter
        (fun row => pyStrip row.1 = "X".toList) =
      ([(("X".toList : Str), ("True".toList : Str))]).filter
        (fun row => pyStrip row.1 = "X".toList) ∧
    ∀ s ∈ [[(("X".toList : Str), ("True".toList : Str)),
        (("Y".toList : Str), ("False".toList : Str))]],
      s.filter (fun row => pyStrip row.1 = "X".toList) =
        ([(("X".toList : Str), ("True".toList : Str))]).filter
          (fun row => pyStrip row.1 = "X".toList) :=
  claimC3_skip
    ⟨some [" X ".toList, "Y".toList], [("X".toList, "True".toList)],
      [(("Y".toList : Str), false)]⟩
    ("X".toList) 0 1
    [("X".toList, "True".toList), ("Y".toList, "False".toList)]
    [[("X".toList, "True".toList), ("Y".toList, "False".toList)]]
    ["Y".toList]
    (by decide) (by decide) (by decide) (by decide) (by decide) (by decide)

/-- **C4.** The download log discipline, for an initial log with pairwise
distinct (stripped) ids and completed tasks carrying stripped nonempty ids:
the loop's in-memory log and the persisted snapshots coincide with the
spec-side rule "overwrite the first row with that identifier in place,
append if none exists" (`specLogStep`); the full log is persisted once after
every completed task; every persisted snapshot and the final log have at
most one entry per identifier; and on rebuild the index maps each identifier
to its first occurrence in the loaded log. -/
theorem claimC4_log (rows : List LogRow) (completed : List (Str × Bool))
    (hn : (rows.map (fun row => pyStrip row.1)).Nodup)
    (hids : ∀ q ∈ completed, pyStrip q.1 = q.1 ∧ q.1 ≠ []) :
    (runLogAux rows (buildIndex rows) completed).1 = specLogFold rows completed ∧
    (runLogAux rows (buildIndex rows) completed).2 = specLogSnapshots rows completed ∧
    (runLogAux rows (buildIndex rows) completed).2.length = completed.length ∧
    (∀ s ∈ (runLogAux rows (buildIndex rows) completed).2,
      (s.map (fun row => pyStrip row.1)).Nodup) ∧
    ((runLogAux rows (buildIndex rows) completed).1.map
      (fun row => pyStrip row.1)).Nodup ∧
    (∀ key : Str, key ≠ [] →
      (buildIndex rows).lookup key =
        rows.findIdx? (fun row => pyStrip row.1 = key)) := by
  have hspec := runLogAux_eq_spec completed rows (buildIndex rows)
    (fun key hkey => buildIndex_lookup hkey) hids
  refine ⟨hspec.1, hspec.2, ?_, ?_, ?_, fun key hkey => buildIndex_lookup hkey⟩
  · rw [hspec.2]
    exact specLogSnapshots_length rows completed
  · intro s hs
    rw [hspec.2] at hs
    exact specLogSnapshots_nodup hn hids s hs
  · rw [hspec.1]
    exact specLogFold_nodup hn hids

/-- Witness for C4: one overwritten and one appended row. -/
theorem claimC4_witness :
    (runLogAux [(("A".toList : Str), ("True".toList : Str))]
        (buildIndex [("A".toList, "True".toList)])
        [(("B".toList : Str), true), (("A".toList : Str), false)]).1 =
      specLogFold [("A".toList, "True".toList)]
        [(("B".toList : Str), true), (("A".toList : Str), false)] ∧
    (runLogAux [(("A".toList : Str), ("True".toList : Str))]
        (buildIndex [("A".toList, "True".toList)])
        [(("B".toList : Str), true), (("A".toList : Str), false)]).2.length =
      ([(("B".toList : Str), true), (("A".toList : Str), false)]).length :=
  ⟨(claimC4_log [("A".toList, "True".toList)]
      [(("B".toList : Str), true), (("A".toList : Str), false)]
      (by decide) (by decide)).1,
   (claimC4_log [("A".toList, "True".toList)]
      [(("B".toList : Str), true), (("A".toList : Str), false)]
      (by decide) (by decide)).2.2.1⟩

/-- **C5.** The deduplicator keeps a subsequence of the input (original
relative order and positions preserved), preserves comment lines verbatim
(the comment sublists coincide), drops every blank line, keeps exactly the
first occurrence of each non-comment string (`kfoFrom [] ...` over the
non-blank non-comment lines), and maps the spec's example to its stated
output. -/
theorem claimC5_dedup (text : List Str) :
    List.Sublist (dedupLines text) text ∧
    (dedupLines text).filter startsHash = text.filter startsHash ∧
    (∀ l ∈ dedupLines text, pyStrip l ≠ []) ∧
    (dedupLines text).filter (fun s => !startsHash s) =
      kfoFrom [] (text.filter (fun s => !(pyStrip s).isEmpty && !startsHash s)) ∧
    dedupLines ["# h".toList, "A".toList, "B".toList, "A".toList, [], "C".toList] =
      ["# h".toList, "A".toList, "B".toList, "C".toList] :=
  ⟨dedupAux_sublist [] text,
   dedupAux_comments [] text,
   fun _ hl => dedupAux_no_blank hl,
   dedupAux_noncomments [] text,
   by decide⟩

/-- Witness for C5 at the spec's own example input. -/
theorem claimC5_witness :
    List.Sublist
      (dedupLines ["# h".toList, "A".toList, "B".toList, "A".toList, [], "C".toList])
      ["# h".toList, "A".toList, "B".toList, "A".toList, [], "C".toList] ∧
    dedupLines ["# h".toList, "A".toList, "B".toList, "A".toList, [], "C".toList] =
      ["# h".toList, "A".toList, "B".toList, "C".toList] :=
  ⟨(claimC5_dedup ["# h".toList, "A".toList, "B".toList, "A".toList, [], "C".toList]).1,
   (claimC5_dedup ["# h".toList, "A".toList, "B".toList, "A".toList, [], "C".toList]).2.2.2.2⟩

/-- **C6 (amended).** Running the deduplicator a second time on the output
of the first run touches no file — identical output, a no-op report and no
backup — provided the input is empty or keeps at least one line after
deduplication.  (For a nonempty input consisting solely of blank lines the
rewritten file is a single newline, which re-reads as one blank line and is
rewritten again: `claimC6_counterexample`.) -/
theorem claimC6_idempotent (content : Str)
    (h : splitlinesNL content = [] ∨ dedupLines (splitlinesNL content) ≠ []) :
    dedupRunWrites (fileAfterRun content) = [] := by
  by_cases heq : dedupLines (splitlinesNL content) = splitlinesNL content
  · have hfile : fileAfterRun content = content := by
      simp only [fileAfterRun]
      rw [if_pos heq]
    rw [hfile]
    simp only [dedupRunWrites]
    rw [if_pos heq]
  · have hded : dedupLines (splitlinesNL content) ≠ [] := by
      rcases h with h0 | hne
      · exfalso
        exact heq (by rw [h0]; rfl)
      · exact hne
    have hfile : fileAfterRun content = joinNL (dedupLines (splitlinesNL content)) := by
      simp only [fileAfterRun]
      rw [if_neg heq]
    rw [hfile]
    have hclean : ∀ x ∈ dedupLines (splitlinesNL content), '\n' ∉ x := by
      intro x hx
      exact splitlinesNL_no_newline ((dedupAux_sublist [] _).subset hx)
    have hrt : splitlinesNL (joinNL (dedupLines (splitlinesNL content))) =
        dedupLines (splitlinesNL content) := splitlinesNL_joinNL hded hclean
    simp only [dedupRunWrites]
    rw [hrt]
    rw [if_pos (show dedupLines (dedupLines (splitlinesNL content)) =
      dedupLines (splitlinesNL content) from dedupAux_idem [] (splitlinesNL content))]

/-- Witness for C6: on `A\nA` the first run rewrites the file to `A\n` and
the second run writes nothing. -/
theorem claimC6_witness :
    dedupRunWrites (fileAfterRun "A\nA".toList) = [] :=
  claimC6_idempotent ("A\nA".toList) (Or.inr (by decide))

/-- Counterexample to C6 as frozen: for the one-blank-line file (content a
single newline), the second run is *not* a no-op — it writes the backup and
rewrites the identifier file again, though the claim promises identical
output with a no-op and no backup on the second run. -/
theorem claimC6_counterexample :
    dedupRunWrites "\n".toList ≠ [] ∧
    fileAfterRun "\n".toList = "\n".toList ∧
    dedupRunWrites (fileAfterRun "\n".toList) =
      [(FileTarget.backupFile, "\n".toList), (FileTarget.idsFile, "\n".toList)] := by
  decide

/-- **C7 (amended).** If the deduplicated line sequence equals the original
line sequence, the deduplicator writes nothing; otherwise it writes, first,
the original line sequence rejoined with newline separators plus a trailing
newline to the backup path, and only then the deduplicated content to the
identifier file.  The backup is byte-identical to the original content
whenever the original ends with a newline.  (For a final line without a
trailing newline the backup gains one: `claimC7_counterexample`.) -/
theorem claimC7_backup (content : Str) :
    (dedupLines (splitlinesNL content) = splitlinesNL content →
      dedupRunWrites content = []) ∧
    (dedupLines (splitlinesNL content) ≠ splitlinesNL content →
      dedupRunWrites content =
        [(FileTarget.backupFile, joinNL (splitlinesNL content)),
         (FileTarget.idsFile, joinNL (dedupLines (splitlinesNL content)))] ∧
      (content.getLast? = some '\n' → joinNL (splitlinesNL content) = content)) := by
  constructor
  · intro h
    simp only [dedupRunWrites]
    rw [if_pos h]
  · intro h
    constructor
    · simp only [dedupRunWrites]
      rw [if_neg h]
    · intro hlast
      exact joinNL_splitlinesNL hlast

/-- Witness for C7: on `A\nA\n` the backup is byte-identical to the original
and precedes the rewrite. -/
theorem claimC7_witness :
    dedupRunWrites "A\nA\n".toList =
      [(FileTarget.backupFile, joinNL (splitlinesNL "A\nA\n".toList)),
       (FileTarget.idsFile, joinNL (dedupLines (splitlinesNL "A\nA\n".toList)))] ∧
    joinNL (splitlinesNL "A\nA\n".toList) = "A\nA\n".toList := by
  have h := (claimC7_backup ("A\nA\n".toList)).2 (by decide)
  exact ⟨h.1, h.2 (by decide)⟩

/-- Counterexample to C7 as frozen: for content `A\nA` (no trailing
newline) the run rewrites the file, but the backup content `A\nA\n` is not
the original content verbatim — a trailing newline is added. -/
theorem claimC7_counterexample :
    dedupRunWrites "A\nA".toList =
      [(FileTarget.backupFile, "A\nA\n".toList), (FileTarget.idsFile, "A\n".toList)] ∧
    "A\nA\n".toList ≠ "A\nA".toList := by
  decide

/-- **C8.** The presence checker: the actual set is the set of stems of
regular files whose extension lowercases to `.cif`, with any text after a
`__casefix-` marker stripped; `missing` holds exactly the expected
identifiers without a present stem and `extra` exactly the present stems not
expected, both sorted ascending without duplicates; and the missing-IDs file
content is always (re)written as the missing identifiers joined by newlines,
even when the missing set is empty. -/
theorem claimC8_checker (idLines : List Str) (entries : List DirEntry) :
    (∀ x : Str, x ∈ (checkRun idLines entries).missing ↔
      x ∈ iterIdsCheck idLines ∧ x ∉ iterCifNames entries) ∧
    (∀ x : Str, x ∈ (checkRun idLines entries).extra ↔
      x ∈ iterCifNames entries ∧ x ∉ iterIdsCheck idLines) ∧
    (checkRun idLines entries).missing.Sorted (· ≤ ·) ∧
    (checkRun idLines entries).missing.Nodup ∧
    (checkRun idLines entries).extra.Sorted (· ≤ ·) ∧
    (checkRun idLines entries).extra.Nodup ∧
    (checkRun idLines entries).writtenContent =
      List.intercalate ['\n'] (checkRun idLines entries).missing ∧
    (∀ x : Str, x ∈ iterCifNames entries ↔
      ∃ e ∈ entries, e.isFile = true ∧ pyLower (pathSuffix e.name) = cifExt ∧
        x = stripCasefix (pathStem e.name)) :=
  ⟨fun _ => checkRun_missing_mem,
   fun _ => checkRun_extra_mem,
   sortedSet_sorted _,
   sortedSet_nodup _,
   sortedSet_sorted _,
   sortedSet_nodup _,
   rfl,
   fun _ => mem_iterCifNames_iff⟩

/-- Witness for C8 at the spec's example: expected `B, A, C`, present
`A.cif` and `B__casefix-1a2b3c4d.cif`; the missing set is exactly `C` and
nothing is extra. -/
theorem claimC8_witness :
    (checkRun ["B".toList, "A".toList, "C".toList]
      [⟨"A.cif".toList, true⟩, ⟨"B__casefix-1a2b3c4d.cif".toList, true⟩]).missing =
      ["C".toList] ∧
    (checkRun ["B".toList, "A".toList, "C".toList]
      [⟨"A.cif".toList, true⟩, ⟨"B__casefix-1a2b3c4d.cif".toList, true⟩]).extra = [] ∧
    (checkRun ["B".toList, "A".toList, "C".toList]
      [⟨"A.cif".toList, true⟩, ⟨"B__casefix-1a2b3c4d.cif".toList, true⟩]).writtenContent =
      List.intercalate ['\n']
        (checkRun ["B".toList, "A".toList, "C".toList]
          [⟨"A.cif".toList, true⟩, ⟨"B__casefix-1a2b3c4d.cif".toList, true⟩]).missing :=
  ⟨by decide, by decide,
   (claimC8_checker ["B".toList, "A".toList, "C".toList]
     [⟨"A.cif".toList, true⟩, ⟨"B__casefix-1a2b3c4d.cif".toList, true⟩]).2.2.2.2.2.2.1⟩

/-- **C9 (amended).** The scraping loop, run on a synthetic page sequence,
terminates exactly at the first page satisfying the stop condition "no data
rows, or no row carries a material link, or the next control is absent or
disabled": whenever it returns, the last page fetched satisfies the
condition and no earlier page does, and any page satisfying the condition
stops the loop there; on the synthetic three-page sequence whose third page
has a disabled next control, it stops after page three and yields exactly
the identifiers of pages one to three.  (The claim as frozen omits the
"no material links" break; `claimC9_counterexample` exhibits a page with a
data row, a present and enabled next control, on which the loop still
stops.) -/
theorem claimC9_pagination (pages : Nat → PageModel) (fuel p : Nat)
    (ids ids' : List Str) (q : Nat)
    (hrun : runScraper pages fuel p ids = some (ids', q)) :
    (p ≤ q ∧ scrapeStop (pages q) = true ∧
      ∀ r, p ≤ r → r < q → scrapeStop (pages r) = false) ∧
    (∀ (pages' : Nat → PageModel) (p' fuel' : Nat) (ids0 : List Str),
      scrapeStop (pages' p') = true →
      ∃ ids1, runScraper pages' (fuel' + 1) p' ids0 = some (ids1, p')) ∧
    runScraper c9PagesThree 10 0 [] =
      some (["id-a".toList, "id-b".toList, "id-c".toList], 2) :=
  ⟨runScraper_stop fuel p ids ids' q hrun,
   fun _ _ fuel' ids0 h => runScraper_stops_here fuel' ids0 h,
   by decide⟩

/-- Witness for C9 on the three-page sequence itself. -/
theorem claimC9_witness :
    (0 ≤ 2 ∧ scrapeStop (c9PagesThree 2) = true ∧
      ∀ r, 0 ≤ r → r < 2 → scrapeStop (c9PagesThree r) = false) ∧
    (∀ (pages' : Nat → PageModel) (p' fuel' : Nat) (ids0 : List Str),
      scrapeStop (pages' p') = true →
      ∃ ids1, runScraper pages' (fuel' + 1) p' ids0 = some (ids1, p')) ∧
    runScraper c9PagesThree 10 0 [] =
      some (["id-a".toList, "id-b".toList, "id-c".toList], 2) :=
  claimC9_pagination c9PagesThree 10 0 []
    ["id-a".toList, "id-b".toList, "id-c".toList] 2 (by decide)

/-- Counterexample to C9 as frozen: every page of `c9NoLinkPages` has a data
row and a present, enabled next control — none of the claim's three stop
conditions holds on page one — yet the loop terminates there (the rows carry
no material link). -/
theorem claimC9_counterexample :
    runScraper c9NoLinkPages 5 0 [] = some ([], 0) ∧
    scrapeStopClaimed (c9NoLinkPages 0) = false := by
  decide

/-- **C10.** An identifier file that cannot be read, or that contains no
identifier once blank and comment lines are stripped, aborts the run with
the `SystemExit` outcome before any task is submitted or any log write
happens: no download task list and no persisted log snapshot exist. -/
theorem claimC10_emptyInput (inp : RunInput)
    (h : inp.idsFileLines = none ∨
      ∃ lines, inp.idsFileLines = some lines ∧ collectIds lines = []) :
    runMain inp = RunOutcome.earlyError ∧
    runWrites (runMain inp) = [] ∧
    runTasks (runMain inp) = [] := by
  have herr : iterMaterialIds inp.idsFileLines = Except.error () := by
    rcases h with h0 | ⟨lines, hl, hc⟩
    · rw [h0]
      rfl
    · rw [hl]
      simp only [iterMaterialIds]
      rw [hc]
      rfl
  have hmain := runMain_earlyError herr
  exact ⟨hmain, by rw [hmain]; rfl, by rw [hmain]; rfl⟩

/-- Witness for C10: a file holding only a comment and a blank line aborts
the run before any effect. -/
theorem claimC10_witness :
    runMain ⟨some ["# c".toList, "   ".toList], [("A".toList, "True".toList)], []⟩ =
      RunOutcome.earlyError ∧
    runWrites (runMain ⟨some ["# c".toList, "   ".toList],
      [("A".toList, "True".toList)], []⟩) = [] ∧
    runTasks (runMain ⟨some ["# c".toList, "   ".toList],
      [("A".toList, "True".toList)], []⟩) = [] :=
  claimC10_emptyInput
    ⟨some ["# c".toList, "   ".toList], [("A".toList, "True".toList)], []⟩
    (Or.inr ⟨["# c".toList, "   ".toList], rfl, by decide⟩)
